import Mathlib

/-!
# Verification of the ICombSandbox diagram/graph core

This file is a shallow embedding, in Lean 4, of the graph data model and the
structural editing operations of the interaction-net sandbox (`src/App.tsx`,
`src/types/index.ts`, `src/utils/geometry.ts`), together with theorems that
settle the specification claims about them.

Modelling conventions
* JavaScript strings (ids) are Lean `String`s.  The synthetic endpoint owner
  `BOUNDARY` is the literal string "BOUNDARY", as in the source.
* The untagged TypeScript union `PortIndexOrId = number | string` is the sum
  type `PortIndexOrId` below; JavaScript `===` across the union never equates
  a number with a string, which is exactly the derived equality of the sum.
* JavaScript numbers used for port counts and indices are `Int` (the code only
  ever compares and indexes with them); geometric quantities (coordinates,
  angles, lengths) are `ℚ`.  No claim depends on float rounding.
* Identifier generation (`Date.now()` + `Math.random()` concatenation) is
  modelled by explicit fresh-identifier parameters; only uniqueness of the
  generated ids is relevant, and it is stated as a hypothesis where needed.
* Geometric quantities produced by the physics collaborator (measured wire
  lengths, the parent pose transform used during expansion) are parameters of
  the operations, mirroring the spec's treatment of physics as an external
  collaborator that only supplies positions and lengths.
-/

/-- `PortIndexOrId = number | string` from `types/index.ts`: a numeric port
index on a node, or a boundary-port id string. -/
inductive PortIndexOrId where
  | num (i : Int)
  | str (s : String)
  deriving DecidableEq, Repr

/-- An endpoint of a wire: the owning node id (or "BOUNDARY") with the port. -/
abbrev Endpoint := String × PortIndexOrId

/-- `AtomicNodeDefinition` from `types/index.ts`. -/
structure AtomicNodeDefinition where
  id : String
  name : String
  color : String
  principalPorts : Int
  nonPrincipalPorts : Int
  metadataSchema : List String
  deriving DecidableEq, Repr

/-- `CanvasNodeInstance` from `types/index.ts` (the optional metadata value
maps are omitted: no modelled operation reads or writes them). -/
structure CanvasNodeInstance where
  instanceId : String
  definitionId : String
  x : ℚ
  y : ℚ
  isDefinitionInstance : Bool := false
  deriving DecidableEq, Repr

/-- `WireConnection` from `types/index.ts`. -/
structure WireConnection where
  id : String
  sourceNodeId : String
  sourcePortIndex : PortIndexOrId
  targetNodeId : String
  targetPortIndex : PortIndexOrId
  targetLength : Option ℚ := none
  deriving DecidableEq, Repr

/-- `BoundaryPort` from `types/index.ts`. -/
structure BoundaryPort where
  id : String
  x : ℚ
  y : ℚ
  angle : ℚ
  deriving DecidableEq, Repr

/-- `ExternalPort` from `types/index.ts`. -/
structure ExternalPort where
  id : String
  angle : ℚ
  isPrincipal : Bool
  deriving DecidableEq, Repr

/-- `DefinitionDefinition` from `types/index.ts`. -/
structure DefinitionDefinition where
  id : String
  name : String
  color : String
  internalNodes : List CanvasNodeInstance
  internalWires : List WireConnection
  externalPorts : List ExternalPort
  deriving DecidableEq, Repr

/-- The source endpoint of a wire. -/
def WireConnection.srcEP (w : WireConnection) : Endpoint :=
  (w.sourceNodeId, w.sourcePortIndex)

/-- The target endpoint of a wire. -/
def WireConnection.tgtEP (w : WireConnection) : Endpoint :=
  (w.targetNodeId, w.targetPortIndex)

/-- The graph-relevant part of the `App` component state. -/
structure AppState where
  atomicNodes : List AtomicNodeDefinition
  canvasNodes : List CanvasNodeInstance
  wires : List WireConnection
  isBoundaryActive : Bool
  boundaryPorts : List BoundaryPort
  definitions : List DefinitionDefinition
  deriving DecidableEq, Repr

/-- The initial (empty) application state. -/
def initState : AppState :=
  { atomicNodes := [], canvasNodes := [], wires := [],
    isBoundaryActive := false, boundaryPorts := [], definitions := [] }

/-- Is the endpoint `e` the source or target of some wire in `ws`?
Mirrors the occupancy checks of `finishWire` (`App.tsx` 169-176). -/
def isOccupied (ws : List WireConnection) (e : Endpoint) : Bool :=
  ws.any (fun w => decide (w.srcEP = e) || decide (w.tgtEP = e))

/-- `deleteAtomicNode` (`App.tsx` 72-79): removes the atomic definition and
every canvas instance referencing it.  Note that the source does **not**
touch the wire list. -/
def deleteAtomicNode (s : AppState) (definitionIdToDelete : String) : AppState :=
  { s with
    atomicNodes := s.atomicNodes.filter (fun ad => decide (ad.id ≠ definitionIdToDelete)),
    canvasNodes := s.canvasNodes.filter (fun n => decide (n.definitionId ≠ definitionIdToDelete)) }

/-- `addAtomicNode` (`App.tsx` 68-70). -/
def addAtomicNode (s : AppState) (newNode : AtomicNodeDefinition) : AppState :=
  { s with atomicNodes := s.atomicNodes ++ [newNode] }

/-- `addNodeToCanvas` (`App.tsx` 82-110).  The generated instance id is the
parameter `freshInstId`. -/
def addNodeToCanvas (s : AppState) (definitionOrAtomicId : String)
    (freshInstId : String) (x y : ℚ) : AppState :=
  if definitionOrAtomicId.startsWith "definition:" then
    let actualId := definitionOrAtomicId.drop 11
    if s.definitions.any (fun d => decide (d.id = actualId)) then
      { s with canvasNodes := s.canvasNodes ++
          [{ instanceId := freshInstId, definitionId := actualId, x := x, y := y,
             isDefinitionInstance := true }] }
    else s
  else
    if s.atomicNodes.any (fun ad => decide (ad.id = definitionOrAtomicId)) then
      { s with canvasNodes := s.canvasNodes ++
          [{ instanceId := freshInstId, definitionId := definitionOrAtomicId, x := x, y := y,
             isDefinitionInstance := false }] }
    else s

/-- `deleteCanvasNode` (`App.tsx` 112-121): removes the instance and every
wire with an endpoint on it. -/
def deleteCanvasNode (s : AppState) (instanceIdToDelete : String) : AppState :=
  { s with
    canvasNodes := s.canvasNodes.filter (fun n => decide (n.instanceId ≠ instanceIdToDelete)),
    wires := s.wires.filter (fun w =>
      decide (w.sourceNodeId ≠ instanceIdToDelete) && decide (w.targetNodeId ≠ instanceIdToDelete)) }

/-- `finishWire` (`App.tsx` 146-218).  `src` is the drawing-wire source
endpoint; `target` is the drop endpoint (`none` = cancelled).  `freshWireId`
stands for the generated wire id and `physLen` for the physics-measured
node-to-node length (the source computes it from live poses; it is `null`
whenever an endpoint is on the boundary or pose data is unavailable). -/
def finishWire (s : AppState) (src : Endpoint) (target : Option Endpoint)
    (freshWireId : String) (physLen : Option ℚ) : AppState :=
  match target with
  | none => s
  | some tgt =>
    if src = tgt then s
    else if isOccupied s.wires src || isOccupied s.wires tgt then s
    else
      let initialLength : Option ℚ :=
        if decide (src.1 ≠ "BOUNDARY") && decide (tgt.1 ≠ "BOUNDARY") then physLen else none
      { s with wires := s.wires ++
          [{ id := freshWireId, sourceNodeId := src.1, sourcePortIndex := src.2,
             targetNodeId := tgt.1, targetPortIndex := tgt.2,
             targetLength := initialLength }] }

/-- `deleteWire` (`App.tsx` 221-224). -/
def deleteWire (s : AppState) (wireIdToDelete : String) : AppState :=
  { s with wires := s.wires.filter (fun w => decide (w.id ≠ wireIdToDelete)) }

/-- Does the wire touch the boundary port `pid` on its source side?
Mirrors `w.sourceNodeId === 'BOUNDARY' && boundaryPortIds.has(w.sourcePortIndex)`. -/
def srcTouchesBoundaryPortOf (ids : List String) (w : WireConnection) : Bool :=
  decide (w.sourceNodeId = "BOUNDARY") &&
    (match w.sourcePortIndex with
     | .str pid => decide (pid ∈ ids)
     | .num _ => false)

/-- Target-side analogue of `srcTouchesBoundaryPortOf`. -/
def tgtTouchesBoundaryPortOf (ids : List String) (w : WireConnection) : Bool :=
  decide (w.targetNodeId = "BOUNDARY") &&
    (match w.targetPortIndex with
     | .str pid => decide (pid ∈ ids)
     | .num _ => false)

/-- `toggleBoundary` (`App.tsx` 350-368): closing the boundary removes every
wire touching a boundary port, then clears the ports. -/
def toggleBoundary (s : AppState) : AppState :=
  if s.isBoundaryActive then
    let boundaryPortIds := s.boundaryPorts.map (·.id)
    { s with
      isBoundaryActive := false,
      wires := s.wires.filter (fun w =>
        !(srcTouchesBoundaryPortOf boundaryPortIds w) &&
        !(tgtTouchesBoundaryPortOf boundaryPortIds w)),
      boundaryPorts := [] }
  else
    { s with isBoundaryActive := true }

/-- `addBoundaryPort` (`App.tsx` 370-377): rejected while the boundary is
inactive. -/
def addBoundaryPort (s : AppState) (newPort : BoundaryPort) : AppState :=
  if s.isBoundaryActive then
    { s with boundaryPorts := s.boundaryPorts ++ [newPort] }
  else s

/-- `deleteBoundaryPort` (`App.tsx` 379-388). -/
def deleteBoundaryPort (s : AppState) (portIdToDelete : String) : AppState :=
  { s with
    boundaryPorts := s.boundaryPorts.filter (fun p => decide (p.id ≠ portIdToDelete)),
    wires := s.wires.filter (fun w =>
      !(srcTouchesBoundaryPortOf [portIdToDelete] w) &&
      !(tgtTouchesBoundaryPortOf [portIdToDelete] w)) }

/-- The snapshot stored in `definitionCandidate` (`App.tsx` 27, 542-546). -/
structure DefinitionCandidate where
  nodes : List CanvasNodeInstance
  wires : List WireConnection
  ports : List BoundaryPort
  deriving DecidableEq, Repr

/-- Outcome of `handleAddDefinitionClick` (`App.tsx` 484-549). -/
inductive ValidateResult where
  | inactiveBoundary
  | emptyBoundary
  | danglingPorts (dangling : List Endpoint)
  | captured (cand : DefinitionCandidate)
  deriving DecidableEq, Repr

/-- JavaScript `Map.set` on an association list: replace the value at an
existing key (keeping its insertion position), else append. -/
def jsMapSet (m : List (String × List PortIndexOrId)) (k : String)
    (v : List PortIndexOrId) : List (String × List PortIndexOrId) :=
  if m.any (fun p => decide (p.1 = k)) then
    m.map (fun p => if decide (p.1 = k) then (k, v) else p)
  else m ++ [(k, v)]

/-- JavaScript `new Set(list)`: deduplicate keeping first occurrences. -/
def jsSetOfList (l : List PortIndexOrId) : List PortIndexOrId :=
  l.foldl (fun acc x => if decide (x ∈ acc) then acc else acc ++ [x]) []

/-- The expected port list of one canvas node (`App.tsx` 499-509): its atomic
definition's indices `0 .. total-1`, or nothing when the node's definition id
is not found among the atomic definitions. -/
def nodeExpectedPorts (atomics : List AtomicNodeDefinition)
    (n : CanvasNodeInstance) : Option (List PortIndexOrId) :=
  match atomics.find? (fun ad => decide (ad.id = n.definitionId)) with
  | some ad =>
      some ((List.range (ad.principalPorts + ad.nonPrincipalPorts).toNat).map
        (fun i => PortIndexOrId.num (Int.ofNat i)))
  | none => none

/-- The `allPorts` map of `handleAddDefinitionClick` (`App.tsx` 495-513):
internal node ports first, then the boundary ports under the key "BOUNDARY". -/
def allExpectedPorts (s : AppState) : List (String × List PortIndexOrId) :=
  let nodePart := s.canvasNodes.foldl
    (fun acc n =>
      match nodeExpectedPorts s.atomicNodes n with
      | some ports => jsMapSet acc n.instanceId ports
      | none => acc) []
  jsMapSet nodePart "BOUNDARY"
    (jsSetOfList (s.boundaryPorts.map (fun p => PortIndexOrId.str p.id)))

/-- The `connectedPorts` set (`App.tsx` 516-519): every endpoint of every
wire.  The source encodes endpoints as the string `nodeId:portIndexOrId`; the
typed pair used here coincides with that encoding whenever ids contain no
colon (all generated ids do). -/
def connectedEndpoints (s : AppState) : List Endpoint :=
  s.wires.foldl (fun acc w => acc ++ [w.srcEP, w.tgtEP]) []

/-- The dangling-port scan of `handleAddDefinitionClick` (`App.tsx` 521-532),
in the map's iteration order. -/
def danglingEndpoints (s : AppState) : List Endpoint :=
  (allExpectedPorts s).flatMap (fun p =>
    (p.2.filter (fun port => !(decide ((p.1, port) ∈ connectedEndpoints s)))).map
      (fun port => (p.1, port)))

/-- `handleAddDefinitionClick` (`App.tsx` 484-549): validation before
extraction; on success the current nodes, wires and boundary ports are
captured as the definition candidate. -/
def handleAddDefinitionClick (s : AppState) : ValidateResult :=
  if !s.isBoundaryActive then .inactiveBoundary
  else if s.boundaryPorts.length = 0 then .emptyBoundary
  else
    let dangling := danglingEndpoints s
    if dangling.isEmpty then
      .captured { nodes := s.canvasNodes, wires := s.wires, ports := s.boundaryPorts }
    else .danglingPorts dangling

/-- Predicate of the internal-wire search for an external port
(`App.tsx` 648-651): the wire has a BOUNDARY end carrying the port id. -/
def incidentToBoundaryId (pid : String) (iw : WireConnection) : Bool :=
  (decide (iw.sourceNodeId = "BOUNDARY") && decide (iw.sourcePortIndex = .str pid)) ||
  (decide (iw.targetNodeId = "BOUNDARY") && decide (iw.targetPortIndex = .str pid))

/-- The per-boundary-port body of the `externalPorts` construction inside
`addDefinition` (`App.tsx` 400-433): find the wire connected to the boundary
port, walk to its other endpoint, and classify the port as principal exactly
when that endpoint is a numeric port of a candidate node whose atomic
definition is found and the index is below its principal-port count. -/
def computeExternalPort (atomics : List AtomicNodeDefinition)
    (cand : DefinitionCandidate) (boundaryPort : BoundaryPort) : ExternalPort :=
  let isPrincipal :=
    match cand.wires.find? (incidentToBoundaryId boundaryPort.id) with
    | none => false
    | some connectedWire =>
      let internalNodeId := if connectedWire.sourceNodeId = "BOUNDARY"
        then connectedWire.targetNodeId else connectedWire.sourceNodeId
      let internalPortIndex := if connectedWire.sourceNodeId = "BOUNDARY"
        then connectedWire.targetPortIndex else connectedWire.sourcePortIndex
      if internalNodeId ≠ "BOUNDARY" then
        match internalPortIndex with
        | .num q =>
          match cand.nodes.find? (fun n => decide (n.instanceId = internalNodeId)) with
          | some inst =>
            match atomics.find? (fun ad => decide (ad.id = inst.definitionId)) with
            | some atomicDef => decide (q < atomicDef.principalPorts)
            | none => false
          | none => false
        | .str _ => false
      else false
  { id := boundaryPort.id, angle := boundaryPort.angle, isPrincipal := isPrincipal }

/-- The ascending-by-angle comparator of `externalPorts.sort` (`App.tsx` 435).
A JavaScript stable sort with comparator `a.angle - b.angle` orders by
`a.angle ≤ b.angle`. -/
def angleLe (a b : ExternalPort) : Bool := decide (a.angle ≤ b.angle)

/-- The pure part of `addDefinition` (`App.tsx` 391-447): build the new
`DefinitionDefinition` from a captured candidate.  The generated definition id
is the parameter `freshDefId`. -/
def extractDefinition (atomics : List AtomicNodeDefinition) (cand : DefinitionCandidate)
    (name color freshDefId : String) : DefinitionDefinition :=
  { id := freshDefId, name := name, color := color,
    internalNodes := cand.nodes,
    internalWires := cand.wires,
    externalPorts := (cand.ports.map (computeExternalPort atomics cand)).mergeSort angleLe }

/-- Does the wire touch a removed candidate node or a captured boundary port?
The keep-condition of the wire cleanup in `addDefinition` (`App.tsx` 452-469). -/
def touchesCandidate (removedNodeIds removedBoundaryPortIds : List String)
    (w : WireConnection) : Bool :=
  decide (w.sourceNodeId ∈ removedNodeIds) ||
    srcTouchesBoundaryPortOf removedBoundaryPortIds w ||
    decide (w.targetNodeId ∈ removedNodeIds) ||
    tgtTouchesBoundaryPortOf removedBoundaryPortIds w

/-- `addDefinition` (`App.tsx` 391-474): append the extracted definition,
deactivate and clear the boundary, drop every wire touching a candidate node
or captured boundary port, and clear the canvas nodes. -/
def addDefinition (s : AppState) (cand : DefinitionCandidate)
    (name color freshDefId : String) : AppState :=
  let newDefinition := extractDefinition s.atomicNodes cand name color freshDefId
  let removedNodeIds := cand.nodes.map (·.instanceId)
  let removedBoundaryPortIds := cand.ports.map (·.id)
  { s with
    definitions := s.definitions ++ [newDefinition],
    isBoundaryActive := false,
    boundaryPorts := [],
    wires := s.wires.filter (fun w => !(touchesCandidate removedNodeIds removedBoundaryPortIds w)),
    canvasNodes := [] }

/-- The extraction step as one atomic editor operation: validate the current
state (`handleAddDefinitionClick`) and, when the candidate is captured, run
`addDefinition` on it. -/
def extractStep (s : AppState) (name color freshDefId : String) : AppState :=
  match handleAddDefinitionClick s with
  | .captured cand => addDefinition s cand name color freshDefId
  | _ => s

/-- The observable outcome of `getPortBoundaryLocalOffset`
(`utils/geometry.ts` 14-54).  The source returns a 3D vector: either the zero
vector, or the point of the node's boundary circle (radius 1.15) at a
computed angle.  Points on the circle are represented by that angle — in
degrees for the atomic branch (which converts to radians before cos/sin) and
in radians for the definition branch (which uses the stored angle directly). -/
inductive PortOffsetResult where
  | zeroVec
  | atomicCircleAt (angleDeg : ℚ)
  | defCircleAt (angleRad : ℚ)
  deriving DecidableEq, Repr

/-- `getPortBoundaryLocalOffset` (`utils/geometry.ts` 14-54).  The atomic
branch performs no port-index range check; the definition branch logs an
error and returns the zero vector for an out-of-range index. -/
def getPortBoundaryLocalOffset :
    Sum AtomicNodeDefinition DefinitionDefinition → Int → PortOffsetResult
  | .inl ad, portIndex =>
    let totalPorts := ad.principalPorts + ad.nonPrincipalPorts
    if totalPorts = 0 then .zeroVec
    else
      let angleStep : ℚ := 360 / (totalPorts : ℚ)
      .atomicCircleAt (90 + (portIndex : ℚ) * angleStep)
  | .inr d, portIndex =>
    if portIndex < 0 ∨ (d.externalPorts.length : Int) ≤ portIndex then .zeroVec
    else
      match d.externalPorts.get? portIndex.toNat with
      | some ep => .defCircleAt ep.angle
      | none => .zeroVec

/-- A pending wire-endpoint rewrite (`App.tsx` 586-592). -/
structure WireMod where
  originalWireId : String
  newSourceId : Option String := none
  newSourcePort : Option PortIndexOrId := none
  newTargetId : Option String := none
  newTargetPort : Option PortIndexOrId := none
  deriving DecidableEq, Repr

/-- Apply the first matching modification to a wire (`App.tsx` 781-794).
The source spreads `modification.newSourceId && {..}` (string truthiness:
applied only when the new id is a non-empty string) and
`modification.newSourcePort !== undefined && {..}`. -/
def applyWireMods (mods : List WireMod) (w : WireConnection) : WireConnection :=
  match mods.find? (fun m => decide (m.originalWireId = w.id)) with
  | none => w
  | some m =>
    { w with
      sourceNodeId := match m.newSourceId with
        | some v => if v ≠ "" then v else w.sourceNodeId
        | none => w.sourceNodeId
      sourcePortIndex := m.newSourcePort.getD w.sourcePortIndex
      targetNodeId := match m.newTargetId with
        | some v => if v ≠ "" then v else w.targetNodeId
        | none => w.targetNodeId
      targetPortIndex := m.newTargetPort.getD w.targetPortIndex }

/-- The four mutable arrays threaded through `expandDefinitionInstance`,
plus the number of generated wire ids consumed so far. -/
structure ExpandAcc where
  wiresToRemove : List String
  wiresToModify : List WireMod
  newWires : List WireConnection
  freshUsed : Nat
  deriving DecidableEq, Repr

/-- `if (!list.includes(x)) list.push(x)`. -/
def pushUnique (l : List String) (x : String) : List String :=
  if decide (x ∈ l) then l else l ++ [x]

/-- The other end of a wire one of whose ends is on the boundary
(`App.tsx` 654-659): take the target side when the source is BOUNDARY,
else the source side. -/
def otherEndFromBoundary (iw : WireConnection) : String × PortIndexOrId :=
  if iw.sourceNodeId = "BOUNDARY" then (iw.targetNodeId, iw.targetPortIndex)
  else (iw.sourceNodeId, iw.sourcePortIndex)

/-- Predicate of the boundary-to-boundary search (`App.tsx` 683-686). -/
def bToBIncident (pid : String) (iw : WireConnection) : Bool :=
  decide (iw.sourceNodeId = "BOUNDARY") && decide (iw.targetNodeId = "BOUNDARY") &&
  (decide (iw.sourcePortIndex = .str pid) || decide (iw.targetPortIndex = .str pid))

/-- The map `definition internal instance id → new canvas instance id`
(`App.tsx` 598-604).  Built by successive `Map.set`, so a duplicated key keeps
its last binding; `mapLookup` therefore searches the reversed list. -/
def internalIdMap (internalNodes : List CanvasNodeInstance)
    (freshNodeIds : List String) : List (String × String) :=
  (internalNodes.zip freshNodeIds).map (fun p => (p.1.instanceId, p.2))

/-- `Map.get`: the last binding of the key, if any. -/
def mapLookup (assoc : List (String × String)) (x : String) : Option String :=
  assoc.reverse.lookup x

/-- One iteration of the external-wire loop of `expandDefinitionInstance`
(`App.tsx` 634-725). -/
def processExternalWire (instanceIdToExpand : String) (defn : DefinitionDefinition)
    (idMap : List (String × String)) (externalWires : List WireConnection)
    (freshWireIds : List String) (acc : ExpandAcc)
    (externalWire : WireConnection) : ExpandAcc :=
  let connectedPortIndex := if externalWire.sourceNodeId = instanceIdToExpand
    then externalWire.sourcePortIndex else externalWire.targetPortIndex
  match connectedPortIndex with
  | .str _ => acc
  | .num k =>
    match (if k < 0 then none else defn.externalPorts.get? k.toNat) with
    | none => acc
    | some externalPort =>
      match defn.internalWires.find? (incidentToBoundaryId externalPort.id) with
      | some internalWire =>
        let other := otherEndFromBoundary internalWire
        match mapLookup idMap other.1, other.2 with
        | some newInternalInstanceId, .num internalPortIndex =>
          { acc with
            wiresToRemove := acc.wiresToRemove.erase externalWire.id,
            wiresToModify := acc.wiresToModify ++
              [if externalWire.sourceNodeId = instanceIdToExpand then
                 { originalWireId := externalWire.id,
                   newSourceId := some newInternalInstanceId,
                   newSourcePort := some (.num internalPortIndex) }
               else
                 { originalWireId := externalWire.id,
                   newTargetId := some newInternalInstanceId,
                   newTargetPort := some (.num internalPortIndex) }] }
        | _, _ =>
          { acc with wiresToRemove := pushUnique acc.wiresToRemove externalWire.id }
      | none =>
        match defn.internalWires.find? (bToBIncident externalPort.id) with
        | some boundaryWire =>
          let otherBoundaryPortId := if boundaryWire.sourcePortIndex = .str externalPort.id
            then boundaryWire.targetPortIndex else boundaryWire.sourcePortIndex
          match defn.externalPorts.findIdx?
              (fun p => decide (PortIndexOrId.str p.id = otherBoundaryPortId)) with
          | none => acc
          | some otherExternalPortIndex =>
            match externalWires.find? (fun w =>
                (decide (w.sourceNodeId = instanceIdToExpand) &&
                  decide (w.sourcePortIndex = .num (Int.ofNat otherExternalPortIndex))) ||
                (decide (w.targetNodeId = instanceIdToExpand) &&
                  decide (w.targetPortIndex = .num (Int.ofNat otherExternalPortIndex)))) with
            | none => acc
            | some otherExternalWire =>
              if externalWire.id < otherExternalWire.id then
                let endpointA := if externalWire.sourceNodeId = instanceIdToExpand
                  then externalWire.tgtEP else externalWire.srcEP
                let endpointB := if otherExternalWire.sourceNodeId = instanceIdToExpand
                  then otherExternalWire.tgtEP else otherExternalWire.srcEP
                { acc with
                  newWires := acc.newWires ++
                    [{ id := freshWireIds.getD acc.freshUsed "",
                       sourceNodeId := endpointA.1, sourcePortIndex := endpointA.2,
                       targetNodeId := endpointB.1, targetPortIndex := endpointB.2,
                       targetLength := none }],
                  freshUsed := acc.freshUsed + 1,
                  wiresToRemove :=
                    pushUnique (pushUnique acc.wiresToRemove externalWire.id) otherExternalWire.id }
              else acc
        | none =>
          { acc with wiresToRemove := pushUnique acc.wiresToRemove externalWire.id }

/-- One iteration of the internal-wire re-creation loop
(`App.tsx` 729-764): only wires between two internal nodes are re-created,
and only when both mapped ids are truthy strings.  The geometric best-effort
initial length is supplied by `lenOracle` (the source computes it with
`getPortBoundaryLocalOffset` and a euclidean distance from the freshly laid
out positions). -/
def processInternalWire (idMap : List (String × String)) (freshWireIds : List String)
    (lenOracle : WireConnection → Option ℚ) (acc : ExpandAcc)
    (internalWire : WireConnection) : ExpandAcc :=
  if decide (internalWire.sourceNodeId ≠ "BOUNDARY") &&
     decide (internalWire.targetNodeId ≠ "BOUNDARY") then
    match mapLookup idMap internalWire.sourceNodeId,
          mapLookup idMap internalWire.targetNodeId with
    | some newSourceId, some newTargetId =>
      if newSourceId ≠ "" ∧ newTargetId ≠ "" then
        { acc with
          newWires := acc.newWires ++
            [{ id := freshWireIds.getD acc.freshUsed "",
               sourceNodeId := newSourceId, sourcePortIndex := internalWire.sourcePortIndex,
               targetNodeId := newTargetId, targetPortIndex := internalWire.targetPortIndex,
               targetLength := lenOracle internalWire }],
          freshUsed := acc.freshUsed + 1 }
      else acc
    | _, _ => acc
  else acc

/-- The wires incident to the instance being expanded (`App.tsx` 596). -/
def expansionExternalWires (s : AppState) (instanceIdToExpand : String) : List WireConnection :=
  s.wires.filter (fun w =>
    decide (w.sourceNodeId = instanceIdToExpand) ||
    decide (w.targetNodeId = instanceIdToExpand))

/-- The re-materialized internal nodes (`App.tsx` 600-626): one per internal
node whose atomic definition is found, with the generated id and the
externally transformed position. -/
def expansionNewNodes (atomics : List AtomicNodeDefinition) (defn : DefinitionDefinition)
    (freshNodeIds : List String) (poseTransform : ℚ × ℚ → ℚ × ℚ) : List CanvasNodeInstance :=
  (defn.internalNodes.zip freshNodeIds).filterMap (fun p =>
    if atomics.any (fun ad => decide (ad.id = p.1.definitionId)) then
      some { instanceId := p.2, definitionId := p.1.definitionId,
             x := (poseTransform (p.1.x, p.1.y)).1,
             y := (poseTransform (p.1.x, p.1.y)).2,
             isDefinitionInstance := false }
    else none)

/-- The accumulated wire bookkeeping of an expansion: internal wire ids are
queued for removal (`App.tsx` 631), the external-wire loop runs
(`App.tsx` 634-725), then the internal-wire re-creation loop
(`App.tsx` 729-764). -/
def expansionAcc (s : AppState) (defn : DefinitionDefinition) (instanceIdToExpand : String)
    (freshNodeIds freshWireIds : List String)
    (lenOracle : WireConnection → Option ℚ) : ExpandAcc :=
  let idMap := internalIdMap defn.internalNodes freshNodeIds
  let acc0 : ExpandAcc :=
    { wiresToRemove := defn.internalWires.map (·.id), wiresToModify := [],
      newWires := [], freshUsed := 0 }
  let acc1 := (expansionExternalWires s instanceIdToExpand).foldl
    (processExternalWire instanceIdToExpand defn idMap
      (expansionExternalWires s instanceIdToExpand) freshWireIds) acc0
  defn.internalWires.foldl (processInternalWire idMap freshWireIds lenOracle) acc1

/-- `expandDefinitionInstance` (`App.tsx` 557-806).  The generated ids for
re-materialized internal nodes and for newly created wires are the parameters
`freshNodeIds` / `freshWireIds`; `physicsAvailable` stands for the presence of
the instance's live pose (the expansion aborts without it), and
`poseTransform` for `parentPos + rotate(localPos, parentRot)`. -/
def expandDefinitionInstance (s : AppState) (instanceIdToExpand : String)
    (freshNodeIds freshWireIds : List String) (physicsAvailable : Bool)
    (poseTransform : ℚ × ℚ → ℚ × ℚ) (lenOracle : WireConnection → Option ℚ) : AppState :=
  match s.canvasNodes.find? (fun n => decide (n.instanceId = instanceIdToExpand)) with
  | none => s
  | some instanceToExpand =>
    if !instanceToExpand.isDefinitionInstance then s
    else
      match s.definitions.find? (fun d => decide (d.id = instanceToExpand.definitionId)) with
      | none => s
      | some defn =>
        if !physicsAvailable then s
        else
          let acc2 := expansionAcc s defn instanceIdToExpand freshNodeIds freshWireIds lenOracle
          { s with
            canvasNodes := s.canvasNodes.filter
              (fun n => decide (n.instanceId ≠ instanceIdToExpand)) ++
              expansionNewNodes s.atomicNodes defn freshNodeIds poseTransform,
            wires := ((s.wires.filter
              (fun w => !(decide (w.id ∈ acc2.wiresToRemove)))).map
              (applyWireMods acc2.wiresToModify)) ++ acc2.newWires }

/-- Two wires have no endpoint in common. -/
def EndpointsDisjoint (w1 w2 : WireConnection) : Prop :=
  w1.srcEP ≠ w2.srcEP ∧ w1.srcEP ≠ w2.tgtEP ∧ w1.tgtEP ≠ w2.srcEP ∧ w1.tgtEP ≠ w2.tgtEP

/-- No wire of the list is a self-loop (identical source and target endpoint). -/
def NoSelfLoops (ws : List WireConnection) : Prop :=
  ∀ w ∈ ws, w.srcEP ≠ w.tgtEP

/-- A wire endpoint on a concrete node carries a numeric port index;
string ports occur only on the BOUNDARY owner.  This is how the UI layer
always produces endpoints (node ports are indices, boundary ports are ids). -/
def EndpointWellFormed (e : Endpoint) : Prop :=
  e.1 ≠ "BOUNDARY" → ∃ i, e.2 = PortIndexOrId.num i

/-- Both endpoints of the wire are well formed. -/
def WireWellFormed (w : WireConnection) : Prop :=
  EndpointWellFormed w.srcEP ∧ EndpointWellFormed w.tgtEP

/-- Does the id occur as a node owner of some wire endpoint? -/
def NodeOccursInWires (x : String) (ws : List WireConnection) : Prop :=
  ∃ w ∈ ws, w.sourceNodeId = x ∨ w.targetNodeId = x

/-- Structural invariant of a stored `DefinitionDefinition`: its captured
internal wires satisfy the wire invariants, its external port ids are
distinct, and no captured internal node is named "BOUNDARY". -/
def DefInv (d : DefinitionDefinition) : Prop :=
  d.internalWires.Pairwise EndpointsDisjoint ∧
  NoSelfLoops d.internalWires ∧
  (d.internalWires.map (·.id)).Nodup ∧
  (d.externalPorts.map (·.id)).Nodup ∧
  (∀ n ∈ d.internalNodes, n.instanceId ≠ "BOUNDARY")

/-- The inductive invariant of the editor state: pairwise endpoint-disjoint
wires, no self-loops, distinct wire ids, well-formed endpoints, distinct
boundary-port ids, no canvas node named "BOUNDARY", and every stored
definition structurally sound. -/
def StateInv (s : AppState) : Prop :=
  s.wires.Pairwise EndpointsDisjoint ∧
  NoSelfLoops s.wires ∧
  (s.wires.map (·.id)).Nodup ∧
  (s.boundaryPorts.map (·.id)).Nodup ∧
  (∀ n ∈ s.canvasNodes, n.instanceId ≠ "BOUNDARY") ∧
  (∀ d ∈ s.definitions, DefInv d)

/-- One editor operation.  Generated identifiers appear as constructor
arguments constrained by freshness hypotheses (the source generates them from
timestamp + randomness; only their uniqueness matters). -/
inductive EditorStep : AppState → AppState → Prop where
  | addAtomic (s : AppState) (ad : AtomicNodeDefinition) :
      EditorStep s (addAtomicNode s ad)
  | deleteAtomic (s : AppState) (did : String) :
      EditorStep s (deleteAtomicNode s did)
  | addNode (s : AppState) (raw iid : String) (x y : ℚ)
      (hiid : iid ≠ "BOUNDARY") :
      EditorStep s (addNodeToCanvas s raw iid x y)
  | deleteNode (s : AppState) (iid : String) :
      EditorStep s (deleteCanvasNode s iid)
  | finish (s : AppState) (src : Endpoint) (target : Option Endpoint)
      (wid : String) (len : Option ℚ)
      (hwid : wid ∉ s.wires.map (·.id)) :
      EditorStep s (finishWire s src target wid len)
  | delWire (s : AppState) (wid : String) :
      EditorStep s (deleteWire s wid)
  | toggle (s : AppState) :
      EditorStep s (toggleBoundary s)
  | addBP (s : AppState) (p : BoundaryPort)
      (hp : p.id ∉ s.boundaryPorts.map (·.id)) :
      EditorStep s (addBoundaryPort s p)
  | delBP (s : AppState) (pid : String) :
      EditorStep s (deleteBoundaryPort s pid)
  | extract (s : AppState) (name color did : String) :
      EditorStep s (extractStep s name color did)
  | expand (s : AppState) (iid : String) (fn fw : List String)
      (physOk : Bool) (pose : ℚ × ℚ → ℚ × ℚ) (len : WireConnection → Option ℚ)
      (hfnN : fn.Nodup)
      (hfnF : ∀ x ∈ fn, x ≠ "BOUNDARY" ∧ x ≠ "" ∧ ¬ NodeOccursInWires x s.wires)
      (hfwN : fw.Nodup)
      (hfwF : ∀ x ∈ fw, x ∉ s.wires.map (·.id))
      (hfwLen : ∀ d ∈ s.definitions, d.internalWires.length ≤ fw.length) :
      EditorStep s (expandDefinitionInstance s iid fn fw physOk pose len)

/-- States reachable from the empty workspace by editor operations. -/
inductive EditorReachable : AppState → Prop where
  | init : EditorReachable initState
  | step {s t : AppState} : EditorReachable s → EditorStep s t → EditorReachable t

/-- The modification that the external-wire loop of
`expandDefinitionInstance` produces for one external wire, if any: the
success path of `App.tsx` 663-674 in isolation.  Whether a modification is
pushed does not depend on the loop accumulator, so the loop's
`wiresToModify` output is the `filterMap` of this function. -/
def modOf (instanceIdToExpand : String) (defn : DefinitionDefinition)
    (idMap : List (String × String)) (externalWire : WireConnection) : Option WireMod :=
  match (if externalWire.sourceNodeId = instanceIdToExpand
         then externalWire.sourcePortIndex else externalWire.targetPortIndex) with
  | .str _ => none
  | .num k =>
    match (if k < 0 then none else defn.externalPorts.get? k.toNat) with
    | none => none
    | some externalPort =>
      match defn.internalWires.find? (incidentToBoundaryId externalPort.id) with
      | some internalWire =>
        match mapLookup idMap (otherEndFromBoundary internalWire).1,
              (otherEndFromBoundary internalWire).2 with
        | some newInternalInstanceId, .num internalPortIndex =>
          some (if externalWire.sourceNodeId = instanceIdToExpand then
                  { originalWireId := externalWire.id,
                    newSourceId := some newInternalInstanceId,
                    newSourcePort := some (.num internalPortIndex) }
                else
                  { originalWireId := externalWire.id,
                    newTargetId := some newInternalInstanceId,
                    newTargetPort := some (.num internalPortIndex) })
        | _, _ => none
      | none => none

/-- Should the internal-wire loop re-create this internal wire?  (Both ends
internal and both mapped ids truthy.) -/
def nwCreates (idMap : List (String × String)) (internalWire : WireConnection) : Bool :=
  (decide (internalWire.sourceNodeId ≠ "BOUNDARY") &&
   decide (internalWire.targetNodeId ≠ "BOUNDARY")) &&
  (match mapLookup idMap internalWire.sourceNodeId,
         mapLookup idMap internalWire.targetNodeId with
   | some a, some b => decide (a ≠ "") && decide (b ≠ "")
   | _, _ => false)

/-- The wire that the internal-wire loop creates for `internalWire`, given
the generated id. -/
def mkNewInternalWire (idMap : List (String × String))
    (lenOracle : WireConnection → Option ℚ) (wid : String)
    (internalWire : WireConnection) : WireConnection :=
  { id := wid,
    sourceNodeId := (mapLookup idMap internalWire.sourceNodeId).getD "",
    sourcePortIndex := internalWire.sourcePortIndex,
    targetNodeId := (mapLookup idMap internalWire.targetNodeId).getD "",
    targetPortIndex := internalWire.targetPortIndex,
    targetLength := lenOracle internalWire }

/-- The list of wires created by the internal-wire loop, starting at fresh
index `k`. -/
def nwList (idMap : List (String × String)) (freshWireIds : List String)
    (lenOracle : WireConnection → Option ℚ) (k : Nat) :
    List WireConnection → List WireConnection
  | [] => []
  | iw :: rest =>
    if nwCreates idMap iw then
      mkNewInternalWire idMap lenOracle (freshWireIds.getD k "") iw ::
        nwList idMap freshWireIds lenOracle (k + 1) rest
    else nwList idMap freshWireIds lenOracle k rest

/-- The endpoint is wired: it is the source or target of some wire. -/
def WiredEndpoint (s : AppState) (e : Endpoint) : Prop :=
  ∃ w ∈ s.wires, w.srcEP = e ∨ w.tgtEP = e

/-- Logical description of the endpoint set that `handleAddDefinitionClick`
expects to be wired: every port index of every canvas node **that resolves to
a known atomic definition**, plus every boundary port.  (Canvas nodes whose
definition id is not found among the atomic definitions — in particular
composite definition instances — contribute no expected ports.) -/
def CodeExpectedEndpoint (s : AppState) (e : Endpoint) : Prop :=
  (∃ n ∈ s.canvasNodes, ∃ ad,
      s.atomicNodes.find? (fun a => decide (a.id = n.definitionId)) = some ad ∧
      e.1 = n.instanceId ∧
      ∃ i : Nat, i < (ad.principalPorts + ad.nonPrincipalPorts).toNat ∧
        e.2 = PortIndexOrId.num (Int.ofNat i)) ∨
  (∃ p ∈ s.boundaryPorts, e = ("BOUNDARY", PortIndexOrId.str p.id))

/-- The expected endpoint set as the claim words it: every port index of
every candidate node — a composite definition instance included, its port
count being the length of its `externalPorts` (spec port resolver) — plus
every boundary port.  This follows the specification text and exists only to
be compared with the code's behavior. -/
def ClaimExpectedEndpoint (s : AppState) (e : Endpoint) : Prop :=
  (∃ n ∈ s.canvasNodes, ∃ total : Nat,
      ((∃ ad, s.atomicNodes.find? (fun a => decide (a.id = n.definitionId)) = some ad ∧
          total = (ad.principalPorts + ad.nonPrincipalPorts).toNat) ∨
       (∃ d, s.atomicNodes.find? (fun a => decide (a.id = n.definitionId)) = none ∧
          s.definitions.find? (fun d2 => decide (d2.id = n.definitionId)) = some d ∧
          total = d.externalPorts.length)) ∧
      e.1 = n.instanceId ∧
      ∃ i : Nat, i < total ∧ e.2 = PortIndexOrId.num (Int.ofNat i)) ∨
  (∃ p ∈ s.boundaryPorts, e = ("BOUNDARY", PortIndexOrId.str p.id))

/-- The instance-id renaming performed by expansion: the internal node id `x`
is renamed to the fresh id generated for the last internal node carrying `x`
(and to "" when `x` is not an internal node id — never the case under the
closure hypotheses where it is used). -/
def renameNodeId (internalNodes : List CanvasNodeInstance)
    (freshNodeIds : List String) (x : String) : String :=
  (mapLookup (internalIdMap internalNodes freshNodeIds) x).getD ""

/- ===== Concrete states used by witnesses and counterexamples ===== -/

/-- A one-port atomic agent. -/
def exAtomA : AtomicNodeDefinition := ⟨"A", "A", "red", 1, 0, []⟩

/-- Another one-port atomic agent. -/
def exAtomB : AtomicNodeDefinition := ⟨"B", "B", "green", 1, 0, []⟩

/-- A two-port atomic agent (1 principal + 1 non-principal). -/
def exAtom2P : AtomicNodeDefinition := ⟨"T", "T", "gray", 1, 1, []⟩

/-- An instance of `exAtomA`. -/
def exNodeA : CanvasNodeInstance := ⟨"a", "A", 0, 0, false⟩

/-- An instance of `exAtomB`. -/
def exNodeB : CanvasNodeInstance := ⟨"b", "B", 0, 0, false⟩

/-- A wire between the single ports of `exNodeA` and `exNodeB`. -/
def exWireAB : WireConnection := ⟨"w5", "a", .num 0, "b", .num 0, none⟩

/-- State for the cascade-deletion claim: two wired instances. -/
def exStateC5 : AppState :=
  ⟨[exAtomA, exAtomB], [exNodeA, exNodeB], [exWireAB], false, [], []⟩

/-- Boundary port at angle 0. -/
def exP0 : BoundaryPort := ⟨"p0", 0, 0, 0⟩

/-- Boundary port at angle 1. -/
def exP1 : BoundaryPort := ⟨"p1", 0, 0, 1⟩

/-- A boundary-to-boundary wire between `exP0` and `exP1`. -/
def exB2BWire : WireConnection := ⟨"wb", "BOUNDARY", .str "p0", "BOUNDARY", .str "p1", none⟩

/-- Candidate capturing only the boundary-to-boundary wire. -/
def exB2BCand : DefinitionCandidate := ⟨[], [exB2BWire], [exP0, exP1]⟩

/-- Pre-extraction state of the boundary-to-boundary session. -/
def exB2BPre : AppState := ⟨[], [], [exB2BWire], true, [exP0, exP1], []⟩

/-- The definition extracted from the boundary-to-boundary session (spelled
out; `exB2BDef_eq_extract` below proves it equal to the extraction result). -/
def exB2BDef : DefinitionDefinition :=
  ⟨"D1", "D", "blue", [], [exB2BWire], [⟨"p0", 0, false⟩, ⟨"p1", 1, false⟩]⟩

/-- A live instance of `exB2BDef`. -/
def exB2BInst : CanvasNodeInstance := ⟨"I", "D1", 0, 0, true⟩

/-- External wire from `exNodeA` to port 0 of the instance. -/
def exExtW1 : WireConnection := ⟨"w1", "a", .num 0, "I", .num 0, none⟩

/-- External wire from node "b" to port 1 of the instance. -/
def exExtW2 : WireConnection := ⟨"w2", "b", .num 0, "I", .num 1, none⟩

/-- State for the splice claim: the instance with both external ports wired. -/
def exStateC3 : AppState :=
  ⟨[exAtomA], [exNodeA, ⟨"b", "A", 0, 0, false⟩, exB2BInst], [exExtW1, exExtW2],
   false, [], [exB2BDef]⟩

/-- State for the round-trip counterexample: the freshly placed instance of
the boundary-to-boundary definition, nothing else. -/
def exStateC2 : AppState := ⟨[], [exB2BInst], [], false, [], [exB2BDef]⟩

/-- A composite definition with two external ports. -/
def exDefD2 : DefinitionDefinition :=
  ⟨"D2", "D2", "c", [], [], [⟨"q0", 0, false⟩, ⟨"q1", 1, false⟩]⟩

/-- A canvas instance of the composite definition `exDefD2`. -/
def exNodeJ : CanvasNodeInstance := ⟨"J", "D2", 0, 0, true⟩

/-- A boundary port wired to port 0 of `exNodeJ`. -/
def exPz : BoundaryPort := ⟨"pz", 0, 0, 0⟩

/-- The wire from the boundary port `exPz` to port 0 of `exNodeJ`. -/
def exWz : WireConnection := ⟨"wz", "BOUNDARY", .str "pz", "J", .num 0, none⟩

/-- State for the validation claim's counterexample: a composite candidate
node with its port 1 dangling, yet validation succeeds. -/
def exStateC7 : AppState := ⟨[], [exNodeJ], [exWz], true, [exPz], [exDefD2]⟩

/-- A boundary port wired out, used by the validation witness. -/
def exPw : BoundaryPort := ⟨"p", 0, 0, 0⟩

/-- Witness state for the validation claim: one boundary port, wired. -/
def exStateC7W : AppState :=
  ⟨[], [], [⟨"wv", "BOUNDARY", .str "p", "n", .num 0, none⟩], true, [exPw], []⟩

/-- Two boundary ports sharing the angle 0 (ids "a" and "b"). -/
def exPa : BoundaryPort := ⟨"pa", 0, 0, 0⟩

/-- Second boundary port at the same angle 0. -/
def exPb : BoundaryPort := ⟨"pb", 0, 0, 0⟩

/-- Equal-angle candidate, insertion order `pa, pb`. -/
def exCand8 : DefinitionCandidate := ⟨[], [], [exPa, exPb]⟩

/-- Equal-angle candidate, insertion order `pb, pa`. -/
def exCand8R : DefinitionCandidate := ⟨[], [], [exPb, exPa]⟩

/-- Distinct-angle candidate for the angle-sort witness, order `exP1, exP0`. -/
def exCand8W : DefinitionCandidate := ⟨[], [], [exP1, exP0]⟩

/-- Distinct-angle candidate for the angle-sort witness, order `exP0, exP1`. -/
def exCand8W2 : DefinitionCandidate := ⟨[], [], [exP0, exP1]⟩

/-- Internal node of the round-trip witness (two ports). -/
def exRTNode : CanvasNodeInstance := ⟨"n1", "T", 2, 3, false⟩

/-- Wire from port 0 of the internal node to boundary port `exP0`. -/
def exRTW0 : WireConnection := ⟨"cw0", "n1", .num 0, "BOUNDARY", .str "p0", none⟩

/-- Wire from port 1 of the internal node to boundary port `exP1`. -/
def exRTW1 : WireConnection := ⟨"cw1", "BOUNDARY", .str "p1", "n1", .num 1, none⟩

/-- Fully wired single-node candidate for the round-trip witness. -/
def exRTCand : DefinitionCandidate := ⟨[exRTNode], [exRTW0, exRTW1], [exP0, exP1]⟩

/-- The definition extracted from the round-trip witness candidate (spelled
out; `exRTDef_eq_extract` below proves it equal to the extraction result). -/
def exRTDef : DefinitionDefinition :=
  ⟨"DR", "R", "c", [exRTNode], [exRTW0, exRTW1], [⟨"p0", 0, true⟩, ⟨"p1", 1, false⟩]⟩

/-- A live instance of the round-trip definition. -/
def exRTInst : CanvasNodeInstance := ⟨"IR", "DR", 0, 0, true⟩

/-- A context node wired to port 0 of the round-trip instance. -/
def exRTCtx : CanvasNodeInstance := ⟨"z", "A", 0, 0, false⟩

/-- The external wire attached at port 0 of the round-trip instance. -/
def exRTExt : WireConnection := ⟨"x1", "z", .num 0, "IR", .num 0, none⟩

/-- Expansion-time state of the round-trip witness. -/
def exStateRT : AppState :=
  ⟨[exAtom2P, exAtomA], [exRTCtx, exRTInst], [exRTExt], false, [], [exRTDef]⟩

/-- An active boundary session with no ports. -/
def exStateEmptyB : AppState := ⟨[], [], [], true, [], []⟩

/- ===== Theorems ===== -/

theorem touchesCandidate_iff (ns ps : List String) (w : WireConnection) :
    touchesCandidate ns ps w = true ↔
      (w.sourceNodeId ∈ ns ∨
       (w.sourceNodeId = "BOUNDARY" ∧ ∃ pid, w.sourcePortIndex = .str pid ∧ pid ∈ ps) ∨
       w.targetNodeId ∈ ns ∨
       (w.targetNodeId = "BOUNDARY" ∧ ∃ pid, w.targetPortIndex = .str pid ∧ pid ∈ ps)) := by
  unfold touchesCandidate srcTouchesBoundaryPortOf tgtTouchesBoundaryPortOf
  cases hsp : w.sourcePortIndex <;> cases htp : w.targetPortIndex <;>
    simp [hsp, htp, and_comm, or_assoc]

/-- C5.  The claim states that deleting an AgentDefinition transitively
removes every wire endpointed on a deleted instance.  The code
(`deleteAtomicNode`, `App.tsx` 72-79) filters the atomic library and the
canvas instances but never touches the wire list: in `exStateC5`, deleting
"A" removes the instance "a" yet leaves the wire `exWireAB`, whose source
endpoint is on "a", in place. -/
theorem deleteAtomicNode_keeps_wires_of_deleted_instances :
    (deleteAtomicNode exStateC5 "A").canvasNodes = [exNodeB] ∧
    (deleteAtomicNode exStateC5 "A").wires = [exWireAB] ∧
    exNodeA.definitionId = "A" ∧
    exWireAB.sourceNodeId = exNodeA.instanceId ∧
    (∀ n ∈ (deleteAtomicNode exStateC5 "A").canvasNodes,
      n.instanceId ≠ exWireAB.sourceNodeId) := by
  refine ⟨rfl, rfl, rfl, rfl, ?_⟩
  decide

/-- C6.  `finishWire` fails (the state, in particular the wire set, is
unchanged) when the target is absent, when the target endpoint equals the
source endpoint, or when either endpoint is already occupied; otherwise it
appends exactly one new wire with the generated id between the two
endpoints. -/
theorem finishWire_behavior (s : AppState) (src tgt : Endpoint)
    (wid : String) (len : Option ℚ) :
    (finishWire s src none wid len = s) ∧
    (src = tgt → finishWire s src (some tgt) wid len = s) ∧
    ((isOccupied s.wires src = true ∨ isOccupied s.wires tgt = true) →
      finishWire s src (some tgt) wid len = s) ∧
    (src ≠ tgt → isOccupied s.wires src = false → isOccupied s.wires tgt = false →
      (finishWire s src (some tgt) wid len).wires =
        s.wires ++ [{ id := wid, sourceNodeId := src.1, sourcePortIndex := src.2,
                      targetNodeId := tgt.1, targetPortIndex := tgt.2,
                      targetLength :=
                        if src.1 ≠ "BOUNDARY" ∧ tgt.1 ≠ "BOUNDARY" then len else none }]) := by
  refine ⟨rfl, ?_, ?_, ?_⟩
  · intro h
    simp [finishWire, h]
  · intro h
    by_cases hst : src = tgt
    · simp [finishWire, hst]
    · have : (isOccupied s.wires src || isOccupied s.wires tgt) = true := by
        rcases h with h | h <;> simp [h]
      simp [finishWire, hst, this]
  · intro h1 h2 h3
    have hocc : (isOccupied s.wires src || isOccupied s.wires tgt) = false := by
      simp [h2, h3]
    by_cases hb : src.1 ≠ "BOUNDARY" ∧ tgt.1 ≠ "BOUNDARY"
    · simp [finishWire, h1, hocc, hb, hb.1, hb.2]
    · simp [finishWire, h1, hocc, hb]

/-- Witness for C6: in `exStateC5` (where every port of "a" and "b" is
occupied by `exWireAB` but ports of fresh names are free), wiring two fresh
endpoints succeeds and appends one wire; wiring onto the occupied port
fails. -/
theorem finishWire_behavior_witness :
    (finishWire exStateC5 ("x", .num 0) (some ("y", .num 0)) "w9" none).wires =
      exStateC5.wires ++ [{ id := "w9", sourceNodeId := "x", sourcePortIndex := .num 0,
                            targetNodeId := "y", targetPortIndex := .num 0,
                            targetLength := none }] ∧
    finishWire exStateC5 ("x", .num 0) (some ("a", .num 0)) "w9" none = exStateC5 := by
  constructor
  · have h := (finishWire_behavior exStateC5 ("x", .num 0) ("y", .num 0) "w9" none).2.2.2
      (by decide) (by decide) (by decide)
    simpa using h
  · exact (finishWire_behavior exStateC5 ("x", .num 0) ("a", .num 0) "w9" none).2.2.1
      (Or.inr (by decide))

/-- C9 counterexample.  The claim states that a port index outside
`[0, total)` fails with `InvalidPortIndex` rather than returning a position.
For the two-port atomic definition `exAtom2P`, index 5 is out of range, yet
`getPortBoundaryLocalOffset` performs no range check in the atomic branch and
returns the boundary-circle position at `90 + 5*180 = 990` degrees (the same
point as port 1): a position, not a failure. -/
theorem getPortBoundaryLocalOffset_out_of_range_returns_position :
    getPortBoundaryLocalOffset (.inl exAtom2P) 5 = .atomicCircleAt 990 ∧
    exAtom2P.principalPorts + exAtom2P.nonPrincipalPorts = 2 ∧
    ¬ ((0 : Int) ≤ 5 ∧ (5 : Int) < 2) := by
  refine ⟨?_, by decide, by decide⟩
  show getPortBoundaryLocalOffset (.inl exAtom2P) 5 = .atomicCircleAt 990
  norm_num [getPortBoundaryLocalOffset, exAtom2P]

/-- C9 amended.  What the code actually does: the atomic branch returns the
zero vector only in the degenerate zero-port case and otherwise returns a
boundary-circle position for **any** index (no range check, angles wrap
around the circle); the composite branch returns the zero-vector sentinel —
after logging an error — for an index outside `[0, externalPorts.length)`,
and the stored angle's circle position inside the range.  No
`InvalidPortIndex` failure channel exists. -/
theorem getPortBoundaryLocalOffset_range_behavior :
    (∀ (ad : AtomicNodeDefinition) (i : Int),
        ad.principalPorts + ad.nonPrincipalPorts = 0 →
        getPortBoundaryLocalOffset (.inl ad) i = .zeroVec) ∧
    (∀ (ad : AtomicNodeDefinition) (i : Int),
        ad.principalPorts + ad.nonPrincipalPorts ≠ 0 →
        getPortBoundaryLocalOffset (.inl ad) i =
          .atomicCircleAt (90 + (i : ℚ) *
            (360 / ((ad.principalPorts + ad.nonPrincipalPorts : Int) : ℚ)))) ∧
    (∀ (d : DefinitionDefinition) (i : Int),
        (i < 0 ∨ (d.externalPorts.length : Int) ≤ i) →
        getPortBoundaryLocalOffset (.inr d) i = .zeroVec) ∧
    (∀ (d : DefinitionDefinition) (i : Int),
        0 ≤ i → i < (d.externalPorts.length : Int) →
        ∃ ep, d.externalPorts.get? i.toNat = some ep ∧
          getPortBoundaryLocalOffset (.inr d) i = .defCircleAt ep.angle) := by
  refine ⟨?_, ?_, ?_, ?_⟩
  · intro ad i h
    simp [getPortBoundaryLocalOffset, h]
  · intro ad i h
    simp [getPortBoundaryLocalOffset, h]
  · intro d i h
    simp only [getPortBoundaryLocalOffset]
    rw [if_pos h]
  · intro d i h0 hlen
    have hlt : i.toNat < d.externalPorts.length := by omega
    have hget := List.get?_eq_get hlt
    refine ⟨d.externalPorts.get ⟨i.toNat, hlt⟩, hget, ?_⟩
    have hcond : ¬ (i < 0 ∨ (d.externalPorts.length : Int) ≤ i) := by omega
    simp only [getPortBoundaryLocalOffset]
    rw [if_neg hcond, hget]

/-- Witness for C9's amended theorem at concrete inputs: the two-port atomic
definition at index 5 and the two-port composite `exDefD2` at indices 5
and 1. -/
theorem getPortBoundaryLocalOffset_range_behavior_witness :
    getPortBoundaryLocalOffset (.inl exAtom2P) 5 =
      .atomicCircleAt (90 + ((5 : Int) : ℚ) *
        (360 / ((exAtom2P.principalPorts + exAtom2P.nonPrincipalPorts : Int) : ℚ))) ∧
    getPortBoundaryLocalOffset (.inr exDefD2) 5 = .zeroVec ∧
    ∃ ep, exDefD2.externalPorts.get? 1 = some ep ∧
      getPortBoundaryLocalOffset (.inr exDefD2) 1 = .defCircleAt ep.angle := by
  refine ⟨?_, ?_, ?_⟩
  · exact (getPortBoundaryLocalOffset_range_behavior).2.1 exAtom2P 5 (by decide)
  · exact (getPortBoundaryLocalOffset_range_behavior).2.2.1 exDefD2 5 (by decide)
  · exact (getPortBoundaryLocalOffset_range_behavior).2.2.2 exDefD2 1 (by decide) (by decide)

/-- C10.  After a successful extraction, `addDefinition` sets the canvas
node list to `[]` — every canvas node is removed, whether or not it belongs
to the captured candidate snapshot — and a wire survives exactly when
neither of its endpoints is on a candidate node or on a captured boundary
port. -/
theorem addDefinition_clears_canvas_and_keeps_only_untouched_wires
    (s : AppState) (cand : DefinitionCandidate) (nm col did : String) :
    (addDefinition s cand nm col did).canvasNodes = [] ∧
    ∀ w, w ∈ (addDefinition s cand nm col did).wires ↔
      (w ∈ s.wires ∧
       ¬ (w.sourceNodeId ∈ cand.nodes.map (·.instanceId) ∨
          (w.sourceNodeId = "BOUNDARY" ∧
            ∃ pid, w.sourcePortIndex = .str pid ∧ pid ∈ cand.ports.map (·.id)) ∨
          w.targetNodeId ∈ cand.nodes.map (·.instanceId) ∨
          (w.targetNodeId = "BOUNDARY" ∧
            ∃ pid, w.targetPortIndex = .str pid ∧ pid ∈ cand.ports.map (·.id)))) := by
  constructor
  · rfl
  · intro w
    constructor
    · intro hw
      have hm := List.mem_filter.mp hw
      refine ⟨hm.1, ?_⟩
      intro hcontra
      have := (touchesCandidate_iff (cand.nodes.map (·.instanceId)) (cand.ports.map (·.id)) w).mpr hcontra
      simp [this] at hm
    · intro ⟨hw, hn⟩
      refine List.mem_filter.mpr ⟨hw, ?_⟩
      by_cases ht : touchesCandidate (cand.nodes.map (·.instanceId)) (cand.ports.map (·.id)) w = true
      · exact absurd ((touchesCandidate_iff _ _ w).mp ht) hn
      · simp only [Bool.not_eq_true] at ht
        simp [ht]

theorem find?_of_filter_eq_singleton {α : Type} (p : α → Bool) (l : List α) (a : α)
    (h : l.filter p = [a]) : l.find? p = some a := by
  induction l with
  | nil => simp at h
  | cons x t ih =>
    by_cases hx : p x
    · rw [List.filter_cons_of_pos hx] at h
      have hx1 : x = a := (List.cons.injEq _ _ _ _).mp h |>.1
      rw [List.find?_cons_of_pos _ hx, hx1]
    · rw [List.filter_cons_of_neg hx] at h
      rw [List.find?_cons_of_neg _ hx]
      exact ih h

theorem sorted_distinct_perm_eq (l1 l2 : List ExternalPort)
    (hp : l1.Perm l2)
    (h1 : l1.Pairwise (fun a b => a.angle ≤ b.angle))
    (h2 : l2.Pairwise (fun a b => a.angle ≤ b.angle))
    (hd : l1.Pairwise (fun a b => a.angle ≠ b.angle)) : l1 = l2 := by
  induction l1 generalizing l2 with
  | nil => exact (hp.nil_eq).symm ▸ rfl
  | cons a t ih =>
    cases l2 with
    | nil => exact absurd hp.symm.nil_eq (by simp)
    | cons b t2 =>
      have hab : a = b := by
        have hbl1 : b ∈ a :: t := hp.mem_iff.mpr (List.mem_cons_self b t2)
        have hal2 : a ∈ b :: t2 := hp.subset (List.mem_cons_self a t)
        rcases List.mem_cons.mp hbl1 with hba | hbt
        · exact hba.symm
        · rcases List.mem_cons.mp hal2 with hab2 | hat2
          · exact hab2
          · have hle1 : a.angle ≤ b.angle := (List.pairwise_cons.mp h1).1 b hbt
            have hle2 : b.angle ≤ a.angle := (List.pairwise_cons.mp h2).1 a hat2
            have hne : a.angle ≠ b.angle := (List.pairwise_cons.mp hd).1 b hbt
            exact absurd (le_antisymm hle1 hle2) hne
      subst hab
      have hp2 := hp.cons_inv
      have := ih t2 hp2 (List.pairwise_cons.mp h1).2 (List.pairwise_cons.mp h2).2
        (List.pairwise_cons.mp hd).2
      rw [this]

/-- C8 counterexample.  The claim asserts that the `externalPorts` sequence
of an extraction is independent of the insertion order of the boundary ports.
With two boundary ports sharing the same angle, the stable sort preserves
insertion order, so the two orders `pa, pb` and `pb, pa` (same set of ports,
same nodes and wires) produce different `externalPorts` sequences. -/
theorem extract_externalPorts_insertion_order_dependent :
    exCand8.ports.Perm exCand8R.ports ∧
    exCand8.nodes = exCand8R.nodes ∧
    exCand8.wires = exCand8R.wires ∧
    (extractDefinition [] exCand8 "n" "c" "d").externalPorts ≠
      (extractDefinition [] exCand8R "n" "c" "d").externalPorts := by
  refine ⟨by decide, rfl, rfl, ?_⟩
  have e1 : exCand8.ports.map (computeExternalPort [] exCand8) =
      [⟨"pa", 0, false⟩, ⟨"pb", 0, false⟩] := rfl
  have e2 : exCand8R.ports.map (computeExternalPort [] exCand8R) =
      [⟨"pb", 0, false⟩, ⟨"pa", 0, false⟩] := rfl
  have h1 : (extractDefinition [] exCand8 "n" "c" "d").externalPorts =
      [⟨"pa", 0, false⟩, ⟨"pb", 0, false⟩] := by
    show (exCand8.ports.map (computeExternalPort [] exCand8)).mergeSort angleLe = _
    rw [e1]
    exact List.mergeSort_of_sorted (by decide)
  have h2 : (extractDefinition [] exCand8R "n" "c" "d").externalPorts =
      [⟨"pb", 0, false⟩, ⟨"pa", 0, false⟩] := by
    show (exCand8R.ports.map (computeExternalPort [] exCand8R)).mergeSort angleLe = _
    rw [e2]
    exact List.mergeSort_of_sorted (by decide)
  rw [h1, h2]
  decide

/-- The per-port result of extraction keeps the boundary port's angle. -/
theorem computeExternalPort_angle (atomics : List AtomicNodeDefinition)
    (cand : DefinitionCandidate) (bp : BoundaryPort) :
    (computeExternalPort atomics cand bp).angle = bp.angle := by
  unfold computeExternalPort
  rfl

theorem computeExternalPort_depends_only_on_nodes_and_wires
    (atomics : List AtomicNodeDefinition) (cand cand2 : DefinitionCandidate)
    (hnodes : cand2.nodes = cand.nodes) (hwires : cand2.wires = cand.wires) :
    computeExternalPort atomics cand2 = computeExternalPort atomics cand := by
  cases cand with
  | mk n w p =>
    cases cand2 with
    | mk n2 w2 p2 =>
      simp only at hnodes hwires
      subst hnodes
      subst hwires
      rfl

/-- C8 amended.  Provided the boundary ports have pairwise distinct angles,
the extracted `externalPorts` sequence is sorted ascending by angle and is
the same for any insertion order of the same ports (with the same nodes and
wires); when two ports share an angle the stable sort preserves insertion
order instead (see the counterexample). -/
theorem extract_externalPorts_angle_sorted_and_order_independent
    (atomics : List AtomicNodeDefinition) (cand cand2 : DefinitionCandidate)
    (nm col did nm2 col2 did2 : String)
    (hperm : cand2.ports.Perm cand.ports)
    (hnodes : cand2.nodes = cand.nodes) (hwires : cand2.wires = cand.wires)
    (hdist : cand.ports.Pairwise (fun a b => a.angle ≠ b.angle)) :
    (extractDefinition atomics cand nm col did).externalPorts.Pairwise
      (fun a b => a.angle ≤ b.angle) ∧
    (extractDefinition atomics cand2 nm2 col2 did2).externalPorts =
      (extractDefinition atomics cand nm col did).externalPorts := by
  have htrans : ∀ a b c : ExternalPort, angleLe a b = true → angleLe b c = true →
      angleLe a c = true := by
    intro a b c hab hbc
    simp only [angleLe, decide_eq_true_eq] at hab hbc ⊢
    exact le_trans hab hbc
  have htotal : ∀ a b : ExternalPort, (angleLe a b || angleLe b a) = true := by
    intro a b
    simp only [angleLe, Bool.or_eq_true, decide_eq_true_eq]
    exact le_total a.angle b.angle
  have hsorted1 := List.sorted_mergeSort htrans htotal
    ((cand.ports.map (computeExternalPort atomics cand)))
  have hsorted2 := List.sorted_mergeSort htrans htotal
    ((cand2.ports.map (computeExternalPort atomics cand2)))
  have hs1 : (extractDefinition atomics cand nm col did).externalPorts.Pairwise
      (fun a b => a.angle ≤ b.angle) := by
    refine List.Pairwise.imp ?_ hsorted1
    intro a b hab
    simpa [angleLe] using hab
  refine ⟨hs1, ?_⟩
  have hs2 : (extractDefinition atomics cand2 nm2 col2 did2).externalPorts.Pairwise
      (fun a b => a.angle ≤ b.angle) := by
    refine List.Pairwise.imp ?_ hsorted2
    intro a b hab
    simpa [angleLe] using hab
  have hfcongr := computeExternalPort_depends_only_on_nodes_and_wires atomics cand cand2
    hnodes hwires
  have hmapperm : (cand2.ports.map (computeExternalPort atomics cand2)).Perm
      (cand.ports.map (computeExternalPort atomics cand)) := by
    rw [hfcongr]
    exact hperm.map _
  have hperm12 : (extractDefinition atomics cand2 nm2 col2 did2).externalPorts.Perm
      (extractDefinition atomics cand nm col did).externalPorts := by
    unfold extractDefinition
    simp only
    exact ((List.mergeSort_perm _ angleLe).trans hmapperm).trans
      (List.mergeSort_perm _ angleLe).symm
  have hdistmap : (cand.ports.map (computeExternalPort atomics cand)).Pairwise
      (fun a b => a.angle ≠ b.angle) := by
    rw [List.pairwise_map]
    refine List.Pairwise.imp ?_ hdist
    intro a b hab
    simpa [computeExternalPort_angle] using hab
  have hdist1 : (extractDefinition atomics cand nm col did).externalPorts.Pairwise
      (fun a b => a.angle ≠ b.angle) := by
    exact ((List.mergeSort_perm _ angleLe).pairwise_iff (fun h => h.symm)).mpr hdistmap
  have hdist2 : (extractDefinition atomics cand2 nm2 col2 did2).externalPorts.Pairwise
      (fun a b => a.angle ≠ b.angle) :=
    (hperm12.pairwise_iff (fun h => h.symm)).mpr hdist1
  exact sorted_distinct_perm_eq _ _ hperm12 hs2 hs1 hdist2

/-- The concrete boundary-to-boundary definition is exactly what extraction
produces from its session. -/
theorem exB2BDef_eq_extract :
    extractDefinition [] exB2BCand "D" "blue" "D1" = exB2BDef := by
  have e : exB2BCand.ports.map (computeExternalPort [] exB2BCand) =
      [⟨"p0", 0, false⟩, ⟨"p1", 1, false⟩] := rfl
  unfold extractDefinition exB2BDef
  rw [e, List.mergeSort_of_sorted (by decide)]
  rfl

/-- The concrete round-trip definition is exactly what extraction produces
from its candidate. -/
theorem exRTDef_eq_extract :
    extractDefinition [exAtom2P] exRTCand "R" "c" "DR" = exRTDef := by
  have e : exRTCand.ports.map (computeExternalPort [exAtom2P] exRTCand) =
      [⟨"p0", 0, true⟩, ⟨"p1", 1, false⟩] := rfl
  unfold extractDefinition exRTDef
  rw [e, List.mergeSort_of_sorted (by decide)]
  rfl

/-- C3.  The claim: expanding an instance of a definition with a
boundary-to-boundary internal wire between external ports 0 and 1, with one
external wire attached at each, splices the two far endpoints into exactly
one new wire, removes both original wires, and removes the instance.  What
the code does on that exact input: it removes both external wires and the
instance but creates **no** spliced wire — the splice branch
(`App.tsx` 681-724) is unreachable, because the earlier internal-wire search
(`App.tsx` 648-651) already matches boundary-to-boundary wires, and the
mapped-instance lookup then fails on the BOUNDARY owner, marking the external
wire for plain removal (`App.tsx` 675-680). -/
theorem expandDefinitionInstance_drops_boundary_spliced_wires :
    exB2BDef.internalWires = [exB2BWire] ∧
    exB2BWire.sourceNodeId = "BOUNDARY" ∧ exB2BWire.targetNodeId = "BOUNDARY" ∧
    exStateC3.wires = [exExtW1, exExtW2] ∧
    exStateC3.definitions = [exB2BDef] ∧
    (expandDefinitionInstance exStateC3 "I" [] ["g1"] true id (fun _ => none)).wires = [] ∧
    (expandDefinitionInstance exStateC3 "I" [] ["g1"] true id (fun _ => none)).canvasNodes =
      [exNodeA, ⟨"b", "A", 0, 0, false⟩] := by
  exact ⟨rfl, rfl, rfl, rfl, rfl, by decide, by decide⟩

/-- Witness for C8's amended theorem: the two distinct-angle port orders
`[exP1, exP0]` and `[exP0, exP1]` extract to the same angle-sorted
`externalPorts`. -/
theorem extract_externalPorts_order_independent_witness :
    (extractDefinition [] exCand8W2 "n" "c" "d").externalPorts.Pairwise
      (fun a b => a.angle ≤ b.angle) ∧
    (extractDefinition [] exCand8W "n2" "c2" "d2").externalPorts =
      (extractDefinition [] exCand8W2 "n" "c" "d").externalPorts :=
  extract_externalPorts_angle_sorted_and_order_independent [] exCand8W2 exCand8W
    "n" "c" "d" "n2" "c2" "d2" (by decide) rfl rfl (by decide)

/-- C4.  During extraction, the external port computed for a boundary port
whose unique incident wire is boundary-to-boundary is non-principal; when the
wire instead leads to an internal node port `(nid, q)` whose node and atomic
definition are found, the external port is principal exactly when `q` is
below the definition's principal-port count.  The computed port (which keeps
the boundary port's id and angle) is an element of the extracted definition's
`externalPorts`. -/
theorem computeExternalPort_principal_classification
    (atomics : List AtomicNodeDefinition) (cand : DefinitionCandidate)
    (nm col did : String) (bp : BoundaryPort) (w : WireConnection)
    (hbp : bp ∈ cand.ports)
    (huniq : cand.wires.filter (incidentToBoundaryId bp.id) = [w]) :
    ((w.sourceNodeId = "BOUNDARY" ∧ w.targetNodeId = "BOUNDARY") →
      computeExternalPort atomics cand bp = ⟨bp.id, bp.angle, false⟩) ∧
    (∀ (nid : String) (q : Int) (inst : CanvasNodeInstance) (ad : AtomicNodeDefinition),
      otherEndFromBoundary w = (nid, .num q) → nid ≠ "BOUNDARY" →
      cand.nodes.find? (fun n => decide (n.instanceId = nid)) = some inst →
      atomics.find? (fun a => decide (a.id = inst.definitionId)) = some ad →
      computeExternalPort atomics cand bp =
        ⟨bp.id, bp.angle, decide (q < ad.principalPorts)⟩) ∧
    computeExternalPort atomics cand bp ∈
      (extractDefinition atomics cand nm col did).externalPorts := by
  have hfind : cand.wires.find? (incidentToBoundaryId bp.id) = some w :=
    find?_of_filter_eq_singleton _ _ _ huniq
  refine ⟨?_, ?_, ?_⟩
  · intro ⟨hsb, htb⟩
    unfold computeExternalPort
    rw [hfind]
    simp [hsb, htb]
  · intro nid q inst ad hother hnB hninst had
    unfold computeExternalPort
    rw [hfind]
    unfold otherEndFromBoundary at hother
    by_cases hsb : w.sourceNodeId = "BOUNDARY"
    · rw [if_pos hsb] at hother
      have h1 : w.targetNodeId = nid := congrArg Prod.fst hother
      have h2 : w.targetPortIndex = .num q := congrArg Prod.snd hother
      simp [hsb, h1, h2, hnB, hninst, had]
    · rw [if_neg hsb] at hother
      have h1 : w.sourceNodeId = nid := congrArg Prod.fst hother
      have h2 : w.sourcePortIndex = .num q := congrArg Prod.snd hother
      simp [hsb, h1, h2, hnB, hninst, had]
  · have hmem : computeExternalPort atomics cand bp ∈
        cand.ports.map (computeExternalPort atomics cand) :=
      List.mem_map_of_mem _ hbp
    unfold extractDefinition
    simpa using ((List.mergeSort_perm _ angleLe).mem_iff).mpr hmem

/-- Witness for C4 at concrete inputs: in the round-trip candidate, boundary
port `p0` is wired to port 0 (principal) of the two-port node, so its
external port is principal; in the boundary-to-boundary session, `p0` is
wired to `p1` and its external port is non-principal. -/
theorem computeExternalPort_principal_classification_witness :
    computeExternalPort [exAtom2P] exRTCand exP0 = ⟨"p0", 0, true⟩ ∧
    computeExternalPort [] exB2BCand exP0 = ⟨"p0", 0, false⟩ := by
  constructor
  · have h := (computeExternalPort_principal_classification [exAtom2P] exRTCand
      "R" "c" "DR" exP0 exRTW0 (by decide) (by decide)).2.1 "n1" 0 exRTNode exAtom2P
      rfl (by decide) (by decide) (by decide)
    exact h.trans (by decide)
  · have h := (computeExternalPort_principal_classification [] exB2BCand
      "D" "blue" "D1" exP0 exB2BWire (by decide) (by decide)).1 ⟨rfl, rfl⟩
    exact h.trans (by decide)

/-- C2 counterexample.  The boundary-to-boundary session `exB2BPre` is a
validated boundary session (validation captures it).  Its extraction yields
`exB2BDef`, whose expansion on a freshly placed instance (state `exStateC2`)
produces **no** wires and **no** nodes, while the pre-extraction graph had
one wire: the graph is not reproduced up to renaming (a renaming preserves
the number of wires), so the round-trip claim fails as stated. -/
theorem roundTrip_boundary_wire_not_reproduced :
    handleAddDefinitionClick exB2BPre = .captured exB2BCand ∧
    extractDefinition exB2BPre.atomicNodes exB2BCand "D" "blue" "D1" = exB2BDef ∧
    exB2BCand.wires.length = 1 ∧
    (expandDefinitionInstance exStateC2 "I" [] [] true id (fun _ => none)).wires = [] ∧
    (expandDefinitionInstance exStateC2 "I" [] [] true id (fun _ => none)).canvasNodes = [] := by
  exact ⟨by decide, exB2BDef_eq_extract, rfl, by decide, by decide⟩

theorem foldl_conn (l : List WireConnection) (acc : List Endpoint) :
    l.foldl (fun acc w => acc ++ [w.srcEP, w.tgtEP]) acc =
      acc ++ l.flatMap (fun w => [w.srcEP, w.tgtEP]) := by
  induction l generalizing acc with
  | nil => simp
  | cons w t ih => simp [ih]

theorem mem_connectedEndpoints (s : AppState) (e : Endpoint) :
    e ∈ connectedEndpoints s ↔ WiredEndpoint s e := by
  unfold connectedEndpoints WiredEndpoint
  rw [foldl_conn]
  simp [List.mem_flatMap, eq_comm]

theorem jsSetFold_of_nodup (l acc : List PortIndexOrId) (h : (acc ++ l).Nodup) :
    l.foldl (fun acc x => if decide (x ∈ acc) then acc else acc ++ [x]) acc = acc ++ l := by
  induction l generalizing acc with
  | nil => simp
  | cons x t ih =>
    have hx : x ∉ acc := fun hc =>
      (List.nodup_append.mp h).2.2 hc (List.mem_cons_self x t)
    simp only [List.foldl_cons]
    rw [if_neg (by simpa using hx), ih (acc ++ [x]) (by rwa [← List.append_cons])]
    simp

theorem jsSetOfList_of_nodup (l : List PortIndexOrId) (h : l.Nodup) :
    jsSetOfList l = l := by
  unfold jsSetOfList
  simpa using jsSetFold_of_nodup l [] (by simpa)

theorem nodeExpectedPorts_some (atomics : List AtomicNodeDefinition)
    (n : CanvasNodeInstance) (ports : List PortIndexOrId) :
    nodeExpectedPorts atomics n = some ports ↔
    ∃ ad, atomics.find? (fun a => decide (a.id = n.definitionId)) = some ad ∧
      ports = (List.range (ad.principalPorts + ad.nonPrincipalPorts).toNat).map
        (fun i => PortIndexOrId.num (Int.ofNat i)) := by
  unfold nodeExpectedPorts
  cases h : atomics.find? (fun a => decide (a.id = n.definitionId)) <;> simp [h, eq_comm]

theorem nodeFold_eq (atomics : List AtomicNodeDefinition) (l : List CanvasNodeInstance)
    (acc : List (String × List PortIndexOrId))
    (hdisj : ∀ k ∈ acc.map Prod.fst, k ∉ l.map (·.instanceId))
    (hnodup : (l.map (·.instanceId)).Nodup) :
    l.foldl (fun acc n => match nodeExpectedPorts atomics n with
      | some ports => jsMapSet acc n.instanceId ports
      | none => acc) acc =
    acc ++ l.filterMap (fun n =>
      (nodeExpectedPorts atomics n).map (fun ports => (n.instanceId, ports))) := by
  induction l generalizing acc with
  | nil => simp
  | cons n t ih =>
    have hnotmem : n.instanceId ∉ acc.map Prod.fst := by
      intro hc
      exact hdisj _ hc (by simp)
    have hdisj' : ∀ k ∈ acc.map Prod.fst, k ∉ t.map (·.instanceId) := by
      intro k hk hc
      exact hdisj k hk (by simp [hc])
    have hnodup' : (t.map (·.instanceId)).Nodup := (List.nodup_cons.mp (by simpa using hnodup)).2
    cases hne : nodeExpectedPorts atomics n with
    | none =>
      simp only [List.foldl_cons, hne]
      rw [ih acc hdisj' hnodup']
      simp [List.filterMap_cons, hne]
    | some ports =>
      have hset : jsMapSet acc n.instanceId ports = acc ++ [(n.instanceId, ports)] := by
        unfold jsMapSet
        rw [if_neg]
        simp only [List.any_eq_true, decide_eq_true_eq, not_exists, not_and]
        intro p hp hpk
        exact hnotmem (List.mem_map.mpr ⟨p, hp, hpk⟩)
      simp only [List.foldl_cons, hne]
      rw [hset, ih (acc ++ [(n.instanceId, ports)]) ?_ hnodup']
      · simp [List.filterMap_cons, hne]
      · intro k hk
        rcases List.mem_map.mp hk with ⟨p, hp, hpk⟩
        rcases List.mem_append.mp hp with hpa | hpn
        · exact hdisj' k (List.mem_map.mpr ⟨p, hpa, hpk⟩)
        · have : p = (n.instanceId, ports) := by simpa using hpn
          subst this
          simp only at hpk
          subst hpk
          exact (List.nodup_cons.mp (by simpa using hnodup)).1

theorem allExpectedPorts_eq (s : AppState)
    (hnodup : (s.canvasNodes.map (·.instanceId)).Nodup)
    (hnoB : ∀ n ∈ s.canvasNodes, n.instanceId ≠ "BOUNDARY")
    (hbpn : (s.boundaryPorts.map (·.id)).Nodup) :
    allExpectedPorts s =
      s.canvasNodes.filterMap (fun n =>
        (nodeExpectedPorts s.atomicNodes n).map (fun ports => (n.instanceId, ports))) ++
      [("BOUNDARY", s.boundaryPorts.map (fun p => PortIndexOrId.str p.id))] := by
  have hstr : (s.boundaryPorts.map (fun p => PortIndexOrId.str p.id)).Nodup := by
    have h2 := List.Nodup.map (f := PortIndexOrId.str) (fun a b h => by injection h) hbpn
    simpa [List.map_map] using h2
  unfold allExpectedPorts
  rw [nodeFold_eq s.atomicNodes s.canvasNodes [] (by simp) hnodup,
      jsSetOfList_of_nodup _ hstr]
  unfold jsMapSet
  rw [if_neg]
  · simp
  · simp only [List.any_eq_true, decide_eq_true_eq, not_exists, not_and]
    intro p hp hpk
    simp only [List.nil_append] at hp
    rcases List.mem_filterMap.mp hp with ⟨n, hn, hmap⟩
    rcases Option.map_eq_some'.mp hmap with ⟨ports, hports, hpe2⟩
    have hfst : p.1 = n.instanceId := by rw [← hpe2]
    exact hnoB n hn (hfst ▸ hpk)

theorem mem_danglingEndpoints (s : AppState)
    (hnodup : (s.canvasNodes.map (·.instanceId)).Nodup)
    (hnoB : ∀ n ∈ s.canvasNodes, n.instanceId ≠ "BOUNDARY")
    (hbpn : (s.boundaryPorts.map (·.id)).Nodup) (e : Endpoint) :
    e ∈ danglingEndpoints s ↔ (CodeExpectedEndpoint s e ∧ ¬ WiredEndpoint s e) := by
  unfold danglingEndpoints
  rw [allExpectedPorts_eq s hnodup hnoB hbpn]
  constructor
  · intro he
    rcases List.mem_flatMap.mp he with ⟨p, hp, hep⟩
    rcases List.mem_map.mp hep with ⟨port, hport, heq⟩
    have hfil := List.mem_filter.mp hport
    have hnw : ¬ WiredEndpoint s (p.1, port) := by
      have h2 := hfil.2
      simp only [Bool.not_eq_true', decide_eq_false_iff_not] at h2
      rw [mem_connectedEndpoints] at h2
      exact h2
    subst heq
    rcases List.mem_append.mp hp with hnode | hbdry
    · rcases List.mem_filterMap.mp hnode with ⟨n, hn, hmap⟩
      rcases Option.map_eq_some'.mp hmap with ⟨ports, hports, hpe2⟩
      rcases (nodeExpectedPorts_some s.atomicNodes n ports).mp hports with ⟨ad, hfind, hpe3⟩
      subst hpe3
      have hp1 : p.1 = n.instanceId := by rw [← hpe2]
      have hp2 := hfil.1
      rw [← hpe2] at hp2
      simp only at hp2
      rcases List.mem_map.mp hp2 with ⟨i, hi, hie⟩
      refine ⟨Or.inl ⟨n, hn, ad, hfind, hp1, i, List.mem_range.mp hi, hie.symm⟩, hnw⟩
    · have hpb : p = ("BOUNDARY", s.boundaryPorts.map (fun q => PortIndexOrId.str q.id)) := by
        simpa using hbdry
      have hp2 := hfil.1
      rw [hpb] at hp2
      simp only at hp2
      rcases List.mem_map.mp hp2 with ⟨bp, hbp, hbpe⟩
      refine ⟨Or.inr ⟨bp, hbp, ?_⟩, hnw⟩
      rw [hpb]
      simp [hbpe]
  · intro ⟨hexp, hnw⟩
    rcases hexp with ⟨n, hn, ad, hfind, h1, i, hi, h2⟩ | ⟨bp, hbp2, he⟩
    · apply List.mem_flatMap.mpr
      refine ⟨(n.instanceId,
        (List.range (ad.principalPorts + ad.nonPrincipalPorts).toNat).map
          (fun i => PortIndexOrId.num (Int.ofNat i))), ?_, ?_⟩
      · apply List.mem_append_left
        apply List.mem_filterMap.mpr
        refine ⟨n, hn, ?_⟩
        rw [(nodeExpectedPorts_some s.atomicNodes n _).mpr ⟨ad, hfind, rfl⟩]
        rfl
      · apply List.mem_map.mpr
        refine ⟨e.2, ?_, ?_⟩
        · apply List.mem_filter.mpr
          constructor
          · simp only
            exact List.mem_map.mpr ⟨i, List.mem_range.mpr hi, h2.symm⟩
          · simp only [Bool.not_eq_true', decide_eq_false_iff_not]
            rw [mem_connectedEndpoints]
            have : (n.instanceId, e.2) = e := by
              rw [← h1]
            rw [this]
            exact hnw
        · simp only
          rw [← h1]
    · apply List.mem_flatMap.mpr
      refine ⟨("BOUNDARY", s.boundaryPorts.map (fun q => PortIndexOrId.str q.id)), ?_, ?_⟩
      · apply List.mem_append_right
        simp
      · apply List.mem_map.mpr
        refine ⟨e.2, ?_, ?_⟩
        · apply List.mem_filter.mpr
          constructor
          · simp only
            refine List.mem_map.mpr ⟨bp, hbp2, ?_⟩
            rw [he]
          · simp only [Bool.not_eq_true', decide_eq_false_iff_not]
            rw [mem_connectedEndpoints]
            have : (("BOUNDARY" : String), e.2) = e := by rw [he]
            rw [this]
            exact hnw
        · simp only
          rw [he]

/-- C7 amended.  With an active session, validation fails with EmptyBoundary
exactly when there are no boundary ports; otherwise the dangling-port list
consists exactly of the unwired expected endpoints, where the expected
endpoints are every port index of every candidate node **that resolves to a
known AtomicNodeDefinition** (ports of candidate nodes referencing a
composite Definition, or a missing definition, are not checked — see the
counterexample) plus every boundary port; the candidate is captured exactly
when no such dangling endpoint exists. -/
theorem handleAddDefinitionClick_spec (s : AppState)
    (hact : s.isBoundaryActive = true)
    (hnodup : (s.canvasNodes.map (·.instanceId)).Nodup)
    (hnoB : ∀ n ∈ s.canvasNodes, n.instanceId ≠ "BOUNDARY")
    (hbpn : (s.boundaryPorts.map (·.id)).Nodup) :
    (s.boundaryPorts = [] → handleAddDefinitionClick s = .emptyBoundary) ∧
    (s.boundaryPorts ≠ [] →
      ((∀ e, CodeExpectedEndpoint s e → WiredEndpoint s e) →
         handleAddDefinitionClick s = .captured ⟨s.canvasNodes, s.wires, s.boundaryPorts⟩) ∧
      (∀ l, handleAddDefinitionClick s = .danglingPorts l →
         ∀ e, e ∈ l ↔ (CodeExpectedEndpoint s e ∧ ¬ WiredEndpoint s e)) ∧
      (∀ e, CodeExpectedEndpoint s e → ¬ WiredEndpoint s e →
         ∃ l, handleAddDefinitionClick s = .danglingPorts l ∧ e ∈ l)) := by
  constructor
  · intro h
    simp [handleAddDefinitionClick, hact, h]
  · intro hne
    have hlen : ¬ s.boundaryPorts.length = 0 := by
      simpa [List.length_eq_zero] using hne
    refine ⟨?_, ?_, ?_⟩
    · intro hall
      have hd : danglingEndpoints s = [] := by
        apply List.eq_nil_iff_forall_not_mem.mpr
        intro e he
        have h2 := (mem_danglingEndpoints s hnodup hnoB hbpn e).mp he
        exact h2.2 (hall e h2.1)
      simp [handleAddDefinitionClick, hact, hlen, hd]
    · intro l hl e
      by_cases hd : (danglingEndpoints s).isEmpty
      · exfalso
        simp [handleAddDefinitionClick, hact, hlen, hd] at hl
      · have hl2 : l = danglingEndpoints s := by
          simp [handleAddDefinitionClick, hact, hlen, hd] at hl
          exact hl.symm
        rw [hl2]
        exact mem_danglingEndpoints s hnodup hnoB hbpn e
    · intro e hexp hnw
      have he : e ∈ danglingEndpoints s :=
        (mem_danglingEndpoints s hnodup hnoB hbpn e).mpr ⟨hexp, hnw⟩
      have hd : ¬ (danglingEndpoints s).isEmpty := by
        intro hc
        rw [List.isEmpty_iff] at hc
        rw [hc] at he
        exact absurd he (List.not_mem_nil e)
      refine ⟨danglingEndpoints s, ?_, he⟩
      simp [handleAddDefinitionClick, hact, hlen, hd]

/-- C7 counterexample.  The claim reads the expected endpoint set as every
port index of **every** candidate node.  In `exStateC7` a candidate node is
an instance of the composite definition `exDefD2` with two external ports, of
which only port 0 is wired: the claim therefore demands a DanglingPorts
failure listing `(J, 1)`, but validation succeeds and captures the candidate,
because nodes that do not resolve to an atomic definition contribute no
expected ports (`App.tsx` 499-509). -/
theorem validation_skips_composite_candidate_ports :
    handleAddDefinitionClick exStateC7 = .captured ⟨[exNodeJ], [exWz], [exPz]⟩ ∧
    ClaimExpectedEndpoint exStateC7 ("J", .num 1) ∧
    ¬ WiredEndpoint exStateC7 ("J", .num 1) := by
  refine ⟨by decide, ?_, ?_⟩
  · exact Or.inl ⟨exNodeJ, by decide, 2, Or.inr ⟨exDefD2, rfl, rfl, rfl⟩, rfl, 1, by decide, rfl⟩
  · intro ⟨w, hw, hor⟩
    have hwz : w = exWz := by simpa [exStateC7] using hw
    subst hwz
    rcases hor with h | h <;> exact absurd h (by decide)

/-- Witness for C7's amended theorem: a session whose single boundary port is
wired is captured; a session with no ports fails with EmptyBoundary. -/
theorem handleAddDefinitionClick_spec_witness :
    handleAddDefinitionClick exStateC7W =
      .captured ⟨[], exStateC7W.wires, [exPw]⟩ ∧
    handleAddDefinitionClick exStateEmptyB = .emptyBoundary := by
  constructor
  · refine ((handleAddDefinitionClick_spec exStateC7W rfl (by simp [exStateC7W])
      (by simp [exStateC7W]) (by decide)).2 (by decide)).1 ?_
    intro e he
    rcases he with ⟨n, hn, _⟩ | ⟨p, hp, he⟩
    · exact absurd hn (List.not_mem_nil n)
    · have hpw : p = exPw := by simpa [exStateC7W] using hp
      subst hpw
      subst he
      exact ⟨⟨"wv", "BOUNDARY", .str "p", "n", .num 0, none⟩, by decide, Or.inl (by decide)⟩
  · exact (handleAddDefinitionClick_spec exStateEmptyB rfl (by simp [exStateEmptyB])
      (by simp [exStateEmptyB]) (by simp [exStateEmptyB])).1 rfl

theorem bToB_implies_incident (pid : String) (iw : WireConnection)
    (h : bToBIncident pid iw = true) : incidentToBoundaryId pid iw = true := by
  unfold bToBIncident at h
  unfold incidentToBoundaryId
  simp only [Bool.and_eq_true, Bool.or_eq_true, decide_eq_true_eq] at h ⊢
  rcases h with ⟨⟨hs, ht⟩, hp | hp⟩
  · exact Or.inl ⟨hs, hp⟩
  · exact Or.inr ⟨ht, hp⟩

theorem find_bToB_of_incident_none (pid : String) (l : List WireConnection)
    (h : l.find? (incidentToBoundaryId pid) = none) :
    l.find? (bToBIncident pid) = none := by
  rw [List.find?_eq_none] at h ⊢
  intro x hx hbx
  exact h x hx (bToB_implies_incident pid x hbx)

theorem processExternalWire_cases (iid : String) (defn : DefinitionDefinition)
    (idMap : List (String × String)) (extW : List WireConnection)
    (fw : List String) (acc : ExpandAcc) (ew : WireConnection) :
    (∃ m, modOf iid defn idMap ew = some m ∧
      processExternalWire iid defn idMap extW fw acc ew =
        { acc with wiresToRemove := acc.wiresToRemove.erase ew.id,
                   wiresToModify := acc.wiresToModify ++ [m] }) ∨
    (modOf iid defn idMap ew = none ∧
      (processExternalWire iid defn idMap extW fw acc ew = acc ∨
       processExternalWire iid defn idMap extW fw acc ew =
         { acc with wiresToRemove := pushUnique acc.wiresToRemove ew.id })) := by
  unfold processExternalWire modOf
  dsimp only
  split
  · exact Or.inr ⟨rfl, Or.inl rfl⟩
  · split
    · exact Or.inr ⟨rfl, Or.inl rfl⟩
    · split
      · split
        · exact Or.inl ⟨_, rfl, rfl⟩
        · exact Or.inr ⟨rfl, Or.inr rfl⟩
      · rename_i hfind
        rw [find_bToB_of_incident_none _ _ hfind]
        exact Or.inr ⟨rfl, Or.inr rfl⟩

theorem mem_pushUnique (l : List String) (a x : String) :
    x ∈ pushUnique l a ↔ x ∈ l ∨ x = a := by
  unfold pushUnique
  by_cases h : a ∈ l
  · rw [if_pos (by simpa using h)]
    constructor
    · exact Or.inl
    · intro hx
      rcases hx with hx | hx
      · exact hx
      · exact hx ▸ h
  · rw [if_neg (by simpa using h)]
    simp

theorem foldl_processExternalWire (iid : String) (defn : DefinitionDefinition)
    (idMap : List (String × String)) (extW : List WireConnection) (fw : List String)
    (l : List WireConnection) (acc : ExpandAcc) :
    (l.foldl (processExternalWire iid defn idMap extW fw) acc).newWires = acc.newWires ∧
    (l.foldl (processExternalWire iid defn idMap extW fw) acc).freshUsed = acc.freshUsed ∧
    (l.foldl (processExternalWire iid defn idMap extW fw) acc).wiresToModify =
      acc.wiresToModify ++ l.filterMap (modOf iid defn idMap) ∧
    (∀ x, x ∈ (l.foldl (processExternalWire iid defn idMap extW fw) acc).wiresToRemove →
      x ∈ acc.wiresToRemove ∨ x ∈ l.map (·.id)) ∧
    (∀ x, x ∉ acc.wiresToRemove →
      (∀ ew ∈ l, ew.id = x → (modOf iid defn idMap ew).isSome) →
      x ∉ (l.foldl (processExternalWire iid defn idMap extW fw) acc).wiresToRemove) := by
  induction l generalizing acc with
  | nil => exact ⟨rfl, rfl, by simp, fun x hx => Or.inl hx, fun x hx _ => hx⟩
  | cons ew t ih =>
    simp only [List.foldl_cons]
    rcases processExternalWire_cases iid defn idMap extW fw acc ew with
      ⟨m, hm, hstep⟩ | ⟨hm, hstep | hstep⟩
    · rw [hstep]
      have h := ih { acc with wiresToRemove := acc.wiresToRemove.erase ew.id,
                              wiresToModify := acc.wiresToModify ++ [m] }
      refine ⟨h.1, h.2.1, ?_, ?_, ?_⟩
      · rw [h.2.2.1]
        simp [List.filterMap_cons, hm]
      · intro x hx
        rcases h.2.2.2.1 x hx with hx2 | hx2
        · exact Or.inl (List.erase_subset _ _ hx2)
        · exact Or.inr (by simp [hx2])
      · intro x hx hall
        refine h.2.2.2.2 x ?_ ?_
        · intro hc
          exact hx (List.erase_subset _ _ hc)
        · intro ew2 hew2 hid
          exact hall ew2 (List.mem_cons_of_mem _ hew2) hid
    · rw [hstep]
      have h := ih acc
      refine ⟨h.1, h.2.1, ?_, ?_, ?_⟩
      · rw [h.2.2.1]
        simp [List.filterMap_cons, hm]
      · intro x hx
        rcases h.2.2.2.1 x hx with hx2 | hx2
        · exact Or.inl hx2
        · exact Or.inr (by simp [hx2])
      · intro x hx hall
        exact h.2.2.2.2 x hx (fun ew2 hew2 hid => hall ew2 (List.mem_cons_of_mem _ hew2) hid)
    · rw [hstep]
      have h := ih { acc with wiresToRemove := pushUnique acc.wiresToRemove ew.id }
      refine ⟨h.1, h.2.1, ?_, ?_, ?_⟩
      · rw [h.2.2.1]
        simp [List.filterMap_cons, hm]
      · intro x hx
        rcases h.2.2.2.1 x hx with hx2 | hx2
        · rcases (mem_pushUnique _ _ _).mp hx2 with hx3 | hx3
          · exact Or.inl hx3
          · exact Or.inr (by simp [hx3])
        · exact Or.inr (by simp [hx2])
      · intro x hx hall
        refine h.2.2.2.2 x ?_ ?_
        · intro hc
          rcases (mem_pushUnique _ _ _).mp hc with hx3 | hx3
          · exact hx hx3
          · have := hall ew (List.mem_cons_self _ _) hx3.symm
            rw [hm] at this
            simp at this
        · intro ew2 hew2 hid
          exact hall ew2 (List.mem_cons_of_mem _ hew2) hid

theorem processInternalWire_eq (idMap : List (String × String)) (fw : List String)
    (len : WireConnection → Option ℚ) (acc : ExpandAcc) (iw : WireConnection) :
    processInternalWire idMap fw len acc iw =
      if nwCreates idMap iw then
        { acc with
          newWires := acc.newWires ++
            [mkNewInternalWire idMap len (fw.getD acc.freshUsed "") iw],
          freshUsed := acc.freshUsed + 1 }
      else acc := by
  by_cases hb : iw.sourceNodeId ≠ "BOUNDARY" ∧ iw.targetNodeId ≠ "BOUNDARY"
  · cases hls : mapLookup idMap iw.sourceNodeId with
    | none => simp [processInternalWire, nwCreates, hb.1, hb.2, hls]
    | some a =>
      cases hlt : mapLookup idMap iw.targetNodeId with
      | none => simp [processInternalWire, nwCreates, hb.1, hb.2, hls, hlt]
      | some b =>
        by_cases hne : a ≠ "" ∧ b ≠ ""
        · simp [processInternalWire, nwCreates, mkNewInternalWire, hb.1, hb.2, hls, hlt,
            hne, hne.1, hne.2]
        · have hf : (!decide (a = "") && !decide (b = "")) = false := by
            rcases not_and_or.mp hne with h | h
            · simp only [ne_eq, not_not] at h
              simp [h]
            · simp only [ne_eq, not_not] at h
              simp [h]
          simp [processInternalWire, nwCreates, hb.1, hb.2, hls, hlt, hne, hf]
  · simp [processInternalWire, nwCreates, hb]

theorem foldl_processInternalWire (idMap : List (String × String)) (fw : List String)
    (len : WireConnection → Option ℚ) (l : List WireConnection) (acc : ExpandAcc) :
    (l.foldl (processInternalWire idMap fw len) acc).newWires =
      acc.newWires ++ nwList idMap fw len acc.freshUsed l ∧
    (l.foldl (processInternalWire idMap fw len) acc).wiresToRemove = acc.wiresToRemove ∧
    (l.foldl (processInternalWire idMap fw len) acc).wiresToModify = acc.wiresToModify := by
  induction l generalizing acc with
  | nil => simp [nwList]
  | cons iw t ih =>
    simp only [List.foldl_cons]
    rw [processInternalWire_eq]
    by_cases hc : nwCreates idMap iw
    · rw [if_pos hc]
      have h := ih { acc with
        newWires := acc.newWires ++
          [mkNewInternalWire idMap len (fw.getD acc.freshUsed "") iw],
        freshUsed := acc.freshUsed + 1 }
      refine ⟨?_, h.2.1, h.2.2⟩
      rw [h.1]
      simp [nwList, hc]
    · rw [if_neg hc]
      have h := ih acc
      refine ⟨?_, h.2.1, h.2.2⟩
      rw [h.1]
      simp [nwList, hc]

theorem expansionAcc_spec (s : AppState) (defn : DefinitionDefinition) (iid : String)
    (fn fw : List String) (len : WireConnection → Option ℚ) :
    (expansionAcc s defn iid fn fw len).newWires =
      nwList (internalIdMap defn.internalNodes fn) fw len 0 defn.internalWires ∧
    (expansionAcc s defn iid fn fw len).wiresToModify =
      (expansionExternalWires s iid).filterMap
        (modOf iid defn (internalIdMap defn.internalNodes fn)) ∧
    (∀ x, x ∈ (expansionAcc s defn iid fn fw len).wiresToRemove →
      x ∈ defn.internalWires.map (·.id) ∨
      x ∈ (expansionExternalWires s iid).map (·.id)) ∧
    (∀ x, x ∉ defn.internalWires.map (·.id) →
      (∀ ew ∈ expansionExternalWires s iid, ew.id = x →
        (modOf iid defn (internalIdMap defn.internalNodes fn) ew).isSome) →
      x ∉ (expansionAcc s defn iid fn fw len).wiresToRemove) := by
  have hext := foldl_processExternalWire iid defn (internalIdMap defn.internalNodes fn)
    (expansionExternalWires s iid) fw (expansionExternalWires s iid)
    { wiresToRemove := defn.internalWires.map (·.id), wiresToModify := [],
      newWires := [], freshUsed := 0 }
  have hint := foldl_processInternalWire (internalIdMap defn.internalNodes fn) fw len
    defn.internalWires
    ((expansionExternalWires s iid).foldl
      (processExternalWire iid defn (internalIdMap defn.internalNodes fn)
        (expansionExternalWires s iid) fw)
      { wiresToRemove := defn.internalWires.map (·.id), wiresToModify := [],
        newWires := [], freshUsed := 0 })
  unfold expansionAcc
  dsimp only
  refine ⟨?_, ?_, ?_, ?_⟩
  · rw [hint.1, hext.1, hext.2.1]
    simp
  · rw [hint.2.2, hext.2.2.1]
    simp
  · intro x hx
    rw [hint.2.1] at hx
    exact hext.2.2.2.1 x hx
  · intro x hx hall
    rw [hint.2.1]
    exact hext.2.2.2.2 x hx hall

theorem lookup_mem {α β : Type} [BEq α] [LawfulBEq α] (l : List (α × β)) (k : α) (v : β)
    (h : l.lookup k = some v) : (k, v) ∈ l := by
  induction l with
  | nil => simp [List.lookup] at h
  | cons p t ih =>
    rw [List.lookup] at h
    cases hk : k == p.1
    · simp only [hk] at h
      exact List.mem_cons_of_mem _ (ih h)
    · simp only [hk] at h
      have h2 : k = p.1 := eq_of_beq hk
      have h1 : p.2 = v := by injection h
      subst h2
      rw [← h1]
      simp

theorem mapLookup_internalIdMap_mem (nodes : List CanvasNodeInstance) (fn : List String)
    (x y : String) (h : mapLookup (internalIdMap nodes fn) x = some y) :
    ∃ p ∈ nodes.zip fn, p.1.instanceId = x ∧ p.2 = y := by
  unfold mapLookup internalIdMap at h
  have hmem := lookup_mem _ _ _ h
  rw [List.mem_reverse] at hmem
  rcases List.mem_map.mp hmem with ⟨p, hp, hpe⟩
  refine ⟨p, hp, ?_, ?_⟩
  · exact congrArg Prod.fst hpe
  · exact congrArg Prod.snd hpe

theorem mapLookup_internalIdMap_val_mem (nodes : List CanvasNodeInstance)
    (fn : List String) (x y : String)
    (h : mapLookup (internalIdMap nodes fn) x = some y) : y ∈ fn := by
  rcases mapLookup_internalIdMap_mem nodes fn x y h with ⟨p, hp, _, hpy⟩
  exact hpy ▸ (List.of_mem_zip hp).2

theorem mapLookup_internalIdMap_key_mem (nodes : List CanvasNodeInstance)
    (fn : List String) (x y : String)
    (h : mapLookup (internalIdMap nodes fn) x = some y) :
    x ∈ nodes.map (·.instanceId) := by
  rcases mapLookup_internalIdMap_mem nodes fn x y h with ⟨p, hp, hpx, _⟩
  exact List.mem_map.mpr ⟨p.1, (List.of_mem_zip hp).1, hpx⟩

theorem zip_mem_nodup_snd_eq {β : Type} [DecidableEq β] (fn : List β) (hnd : fn.Nodup)
    (nodes : List CanvasNodeInstance) (n1 n2 : CanvasNodeInstance) (f : β)
    (h1 : (n1, f) ∈ nodes.zip fn) (h2 : (n2, f) ∈ nodes.zip fn) : n1 = n2 := by
  induction nodes generalizing fn with
  | nil => simp at h1
  | cons n ns ih =>
    cases fn with
    | nil => simp at h1
    | cons f0 fs =>
      have hnd2 := List.nodup_cons.mp hnd
      rw [List.zip_cons_cons] at h1 h2
      rcases List.mem_cons.mp h1 with he1 | ht1
      · rcases List.mem_cons.mp h2 with he2 | ht2
        · have := (Prod.mk.injEq _ _ _ _).mp (he1.trans he2.symm)
          exact this.1
        · exfalso
          have hf : f = f0 := congrArg Prod.snd he1
          have : f ∈ fs := hf ▸ (List.of_mem_zip ht2).2
          exact hnd2.1 (hf ▸ this)
      · rcases List.mem_cons.mp h2 with he2 | ht2
        · exfalso
          have hf : f = f0 := congrArg Prod.snd he2
          have : f ∈ fs := hf ▸ (List.of_mem_zip ht1).2
          exact hnd2.1 (hf ▸ this)
        · exact ih fs hnd2.2 ht1 ht2

theorem mapLookup_internalIdMap_inj (nodes : List CanvasNodeInstance) (fn : List String)
    (hnd : fn.Nodup) (x1 x2 y : String)
    (h1 : mapLookup (internalIdMap nodes fn) x1 = some y)
    (h2 : mapLookup (internalIdMap nodes fn) x2 = some y) : x1 = x2 := by
  rcases mapLookup_internalIdMap_mem nodes fn x1 y h1 with ⟨p1, hp1, hpx1, hpy1⟩
  rcases mapLookup_internalIdMap_mem nodes fn x2 y h2 with ⟨p2, hp2, hpx2, hpy2⟩
  have he1 : (p1.1, y) ∈ nodes.zip fn := by
    have : p1 = (p1.1, y) := by
      rw [← hpy1]
    exact this ▸ hp1
  have he2 : (p2.1, y) ∈ nodes.zip fn := by
    have : p2 = (p2.1, y) := by
      rw [← hpy2]
    exact this ▸ hp2
  have := zip_mem_nodup_snd_eq fn hnd nodes p1.1 p2.1 y he1 he2
  rw [← hpx1, ← hpx2, this]

theorem getD_mem_of_lt {α : Type} (l : List α) (j : Nat) (d : α) (h : j < l.length) :
    l.getD j d ∈ l := by
  rw [List.getD_eq_getElem?_getD, List.getElem?_eq_getElem h]
  exact List.getElem_mem h

theorem getD_ne_of_nodup {α : Type} (l : List α) (hnd : l.Nodup) (i j : Nat) (d : α)
    (hi : i < l.length) (hj : j < l.length) (hij : i ≠ j) :
    l.getD i d ≠ l.getD j d := by
  rw [List.getD_eq_getElem?_getD, List.getElem?_eq_getElem hi,
      List.getD_eq_getElem?_getD, List.getElem?_eq_getElem hj]
  simp only [Option.getD_some]
  intro he
  exact hij (List.Nodup.getElem_inj_iff hnd |>.mp he)

theorem nwCreates_spec (idMap : List (String × String)) (iw : WireConnection)
    (h : nwCreates idMap iw = true) :
    iw.sourceNodeId ≠ "BOUNDARY" ∧ iw.targetNodeId ≠ "BOUNDARY" ∧
    ∃ a b, mapLookup idMap iw.sourceNodeId = some a ∧
      mapLookup idMap iw.targetNodeId = some b ∧ a ≠ "" ∧ b ≠ "" := by
  unfold nwCreates at h
  rw [Bool.and_eq_true, Bool.and_eq_true] at h
  obtain ⟨⟨hs, ht⟩, hm⟩ := h
  refine ⟨by simpa using hs, by simpa using ht, ?_⟩
  cases hls : mapLookup idMap iw.sourceNodeId with
  | none => rw [hls] at hm; simp at hm
  | some a =>
    cases hlt : mapLookup idMap iw.targetNodeId with
    | none => rw [hls, hlt] at hm; simp at hm
    | some b =>
      rw [hls, hlt] at hm
      rw [Bool.and_eq_true] at hm
      refine ⟨a, b, rfl, rfl, ?_, ?_⟩
      · simpa using hm.1
      · simpa using hm.2

theorem mkNewInternalWire_src (idMap : List (String × String))
    (len : WireConnection → Option ℚ) (wid : String) (iw : WireConnection) :
    (mkNewInternalWire idMap len wid iw).srcEP =
      ((mapLookup idMap iw.sourceNodeId).getD "", iw.sourcePortIndex) := rfl

theorem mkNewInternalWire_tgt (idMap : List (String × String))
    (len : WireConnection → Option ℚ) (wid : String) (iw : WireConnection) :
    (mkNewInternalWire idMap len wid iw).tgtEP =
      ((mapLookup idMap iw.targetNodeId).getD "", iw.targetPortIndex) := rfl

theorem nwList_mem_spec (idMap : List (String × String)) (fw : List String)
    (len : WireConnection → Option ℚ) (k : Nat) (l : List WireConnection)
    (x : WireConnection) (hx : x ∈ nwList idMap fw len k l) :
    ∃ (j : Nat) (iw : WireConnection), iw ∈ l ∧ nwCreates idMap iw = true ∧
      x = mkNewInternalWire idMap len (fw.getD j "") iw ∧ k ≤ j ∧
      j < k + l.countP (nwCreates idMap) := by
  induction l generalizing k with
  | nil => simp [nwList] at hx
  | cons iw t ih =>
    rw [nwList] at hx
    by_cases hc : nwCreates idMap iw
    · rw [if_pos hc] at hx
      rcases List.mem_cons.mp hx with he | ht
      · refine ⟨k, iw, List.mem_cons_self _ _, hc, he, le_refl k, ?_⟩
        have : 0 < (iw :: t).countP (nwCreates idMap) := by
          rw [List.countP_cons_of_pos _ _ hc]
          omega
        omega
      · rcases ih (k + 1) ht with ⟨j, iw2, hmem, hc2, he2, hk2, hj2⟩
        refine ⟨j, iw2, List.mem_cons_of_mem _ hmem, hc2, he2, by omega, ?_⟩
        rw [List.countP_cons_of_pos _ _ hc]
        omega
    · rw [if_neg hc] at hx
      rcases ih k hx with ⟨j, iw2, hmem, hc2, he2, hk2, hj2⟩
      refine ⟨j, iw2, List.mem_cons_of_mem _ hmem, hc2, he2, hk2, ?_⟩
      rw [List.countP_cons_of_neg _ _ (by simpa using hc)]
      omega

theorem nwList_id_spec (idMap : List (String × String)) (fw : List String)
    (len : WireConnection → Option ℚ) (k : Nat) (l : List WireConnection)
    (x : WireConnection) (hx : x ∈ nwList idMap fw len k l) :
    ∃ j : Nat, k ≤ j ∧ j < k + l.countP (nwCreates idMap) ∧ x.id = fw.getD j "" := by
  rcases nwList_mem_spec idMap fw len k l x hx with ⟨j, iw, _, _, he, hk, hj⟩
  exact ⟨j, hk, hj, by rw [he]; rfl⟩

theorem modOf_some_spec (iid : String) (defn : DefinitionDefinition)
    (idMap : List (String × String)) (ew : WireConnection) (m : WireMod)
    (h : modOf iid defn idMap ew = some m) :
    ∃ (k : Int) (ep : ExternalPort) (iw : WireConnection) (nNew : String) (q : Int),
      (if ew.sourceNodeId = iid then ew.sourcePortIndex else ew.targetPortIndex) =
        PortIndexOrId.num k ∧
      ¬ k < 0 ∧
      defn.externalPorts.get? k.toNat = some ep ∧
      defn.internalWires.find? (incidentToBoundaryId ep.id) = some iw ∧
      mapLookup idMap (otherEndFromBoundary iw).1 = some nNew ∧
      (otherEndFromBoundary iw).2 = PortIndexOrId.num q ∧
      m = (if ew.sourceNodeId = iid then
             { originalWireId := ew.id, newSourceId := some nNew,
               newSourcePort := some (.num q), newTargetId := none, newTargetPort := none }
           else
             { originalWireId := ew.id, newSourceId := none, newSourcePort := none,
               newTargetId := some nNew, newTargetPort := some (.num q) }) := by
  unfold modOf at h
  cases hcp : (if ew.sourceNodeId = iid then ew.sourcePortIndex else ew.targetPortIndex) with
  | str sp =>
    simp only [hcp] at h
    exact Option.noConfusion h
  | num k =>
    simp only [hcp] at h
    by_cases hk : k < 0
    · simp only [if_pos hk] at h
      exact Option.noConfusion h
    · simp only [if_neg hk] at h
      cases hep : defn.externalPorts.get? k.toNat with
      | none =>
        simp only [hep] at h
        exact Option.noConfusion h
      | some ep =>
        simp only [hep] at h
        cases hfind : defn.internalWires.find? (incidentToBoundaryId ep.id) with
        | none =>
          simp only [hfind] at h
          exact Option.noConfusion h
        | some iw =>
          simp only [hfind] at h
          cases hlook : mapLookup idMap (otherEndFromBoundary iw).1 with
          | none =>
            cases hq : (otherEndFromBoundary iw).2 with
            | num q =>
              simp only [hlook, hq] at h
              exact Option.noConfusion h
            | str qs =>
              simp only [hlook, hq] at h
              exact Option.noConfusion h
          | some nNew =>
            cases hq : (otherEndFromBoundary iw).2 with
            | num q =>
              simp only [hlook, hq] at h
              refine ⟨k, ep, iw, nNew, q, rfl, hk, hep, hfind, hlook, hq, ?_⟩
              injection h with h2
              exact h2.symm
            | str qs =>
              simp only [hlook, hq] at h
              exact Option.noConfusion h

theorem modOf_origin (iid : String) (defn : DefinitionDefinition)
    (idMap : List (String × String)) (ew : WireConnection) (m : WireMod)
    (h : modOf iid defn idMap ew = some m) : m.originalWireId = ew.id := by
  rcases modOf_some_spec iid defn idMap ew m h with ⟨k, ep, iw, nNew, q, _, _, _, _, _, _, hm⟩
  rw [hm]
  by_cases hs : ew.sourceNodeId = iid
  · rw [if_pos hs]
  · rw [if_neg hs]

theorem find_mod_none (iid : String) (defn : DefinitionDefinition)
    (idMap : List (String × String)) (extW : List WireConnection) (w : WireConnection)
    (h : ∀ ew ∈ extW, ew.id = w.id → modOf iid defn idMap ew = none) :
    (extW.filterMap (modOf iid defn idMap)).find?
      (fun m => decide (m.originalWireId = w.id)) = none := by
  rw [List.find?_eq_none]
  intro m hm
  rcases List.mem_filterMap.mp hm with ⟨ew, hew, hmod⟩
  simp only [decide_eq_true_eq]
  intro horig
  have hid : ew.id = w.id := (modOf_origin iid defn idMap ew m hmod) ▸ horig
  rw [h ew hew hid] at hmod
  exact Option.noConfusion hmod

theorem find_mod_some (iid : String) (defn : DefinitionDefinition)
    (idMap : List (String × String)) (extW : List WireConnection)
    (hnd : (extW.map (·.id)).Nodup) (ew : WireConnection) (m : WireMod)
    (hew : ew ∈ extW) (hmod : modOf iid defn idMap ew = some m) :
    (extW.filterMap (modOf iid defn idMap)).find?
      (fun m2 => decide (m2.originalWireId = ew.id)) = some m := by
  induction extW with
  | nil => simp at hew
  | cons e t ih =>
    have hnd2 : (t.map (·.id)).Nodup := (List.nodup_cons.mp (by simpa using hnd)).2
    rcases List.mem_cons.mp hew with he | ht
    · subst he
      rw [List.filterMap_cons, hmod]
      rw [List.find?_cons_of_pos]
      simp [modOf_origin iid defn idMap ew m hmod]
    · have hne : e.id ≠ ew.id := by
        intro hc
        have : e.id ∈ t.map (·.id) := hc ▸ List.mem_map.mpr ⟨ew, ht, rfl⟩
        exact (List.nodup_cons.mp (by simpa using hnd)).1 this
      rw [List.filterMap_cons]
      cases hme : modOf iid defn idMap e with
      | none => exact ih hnd2 ht
      | some m2 =>
        rw [List.find?_cons_of_neg]
        · exact ih hnd2 ht
        · simp only [decide_eq_true_eq]
          rw [modOf_origin iid defn idMap e m2 hme]
          exact hne

theorem applyWireMods_id (mods : List WireMod) (w : WireConnection) :
    (applyWireMods mods w).id = w.id := by
  unfold applyWireMods
  cases h : mods.find? (fun m => decide (m.originalWireId = w.id)) <;> rfl

theorem applyWireMods_of_find_none (mods : List WireMod) (w : WireConnection)
    (h : mods.find? (fun m => decide (m.originalWireId = w.id)) = none) :
    applyWireMods mods w = w := by
  unfold applyWireMods
  rw [h]

theorem applyWireMods_of_find_mod (mods : List WireMod) (iid : String)
    (ew : WireConnection) (nNew : String) (q : Int) (hne : nNew ≠ "")
    (hfind : mods.find? (fun m2 => decide (m2.originalWireId = ew.id)) =
      some (if ew.sourceNodeId = iid then
              { originalWireId := ew.id, newSourceId := some nNew,
                newSourcePort := some (.num q), newTargetId := none, newTargetPort := none }
            else
              { originalWireId := ew.id, newSourceId := none, newSourcePort := none,
                newTargetId := some nNew, newTargetPort := some (.num q) })) :
    applyWireMods mods ew =
      (if ew.sourceNodeId = iid then
        { ew with sourceNodeId := nNew, sourcePortIndex := .num q }
      else
        { ew with targetNodeId := nNew, targetPortIndex := .num q }) := by
  unfold applyWireMods
  rw [hfind]
  by_cases hs : ew.sourceNodeId = iid
  · rw [if_pos hs]
    simp [hne, hs]
  · rw [if_neg hs]
    simp [hne, hs]

theorem EndpointsDisjoint.symm {w1 w2 : WireConnection}
    (h : EndpointsDisjoint w1 w2) : EndpointsDisjoint w2 w1 :=
  ⟨(h.1).symm, (h.2.2.1).symm, (h.2.1).symm, (h.2.2.2).symm⟩

theorem endpoint_of_disjoint_absurd {w1 w2 : WireConnection} {e : Endpoint}
    (hd : EndpointsDisjoint w1 w2)
    (h1 : w1.srcEP = e ∨ w1.tgtEP = e) (h2 : w2.srcEP = e ∨ w2.tgtEP = e) : False := by
  rcases h1 with h1 | h1 <;> rcases h2 with h2 | h2
  · exact hd.1 (h1.trans h2.symm)
  · exact hd.2.1 (h1.trans h2.symm)
  · exact hd.2.2.1 (h1.trans h2.symm)
  · exact hd.2.2.2 (h1.trans h2.symm)

theorem inj_on_ids {ws : List WireConnection} (hnd : (ws.map (·.id)).Nodup)
    {w1 w2 : WireConnection} (h1 : w1 ∈ ws) (h2 : w2 ∈ ws) (he : w1.id = w2.id) :
    w1 = w2 :=
  List.inj_on_of_nodup_map hnd h1 h2 he

theorem pairwise_disjoint_of_ne_id {ws : List WireConnection}
    (hp : ws.Pairwise EndpointsDisjoint) (hnd : (ws.map (·.id)).Nodup)
    {w1 w2 : WireConnection} (h1 : w1 ∈ ws) (h2 : w2 ∈ ws) (hne : w1.id ≠ w2.id) :
    EndpointsDisjoint w1 w2 := by
  have hne2 : w1 ≠ w2 := fun hc => hne (hc ▸ rfl)
  exact List.Pairwise.forall (fun {a b} h => h.symm) hp h1 h2 hne2

theorem incidentToBoundaryId_iff (pid : String) (iw : WireConnection) :
    incidentToBoundaryId pid iw = true ↔
      ((iw.sourceNodeId = "BOUNDARY" ∧ iw.sourcePortIndex = .str pid) ∨
       (iw.targetNodeId = "BOUNDARY" ∧ iw.targetPortIndex = .str pid)) := by
  unfold incidentToBoundaryId
  simp [Bool.and_eq_true, Bool.or_eq_true]

theorem otherEnd_is_endpoint (iw : WireConnection) :
    otherEndFromBoundary iw = iw.srcEP ∨ otherEndFromBoundary iw = iw.tgtEP := by
  unfold otherEndFromBoundary
  by_cases h : iw.sourceNodeId = "BOUNDARY"
  · rw [if_pos h]
    exact Or.inr rfl
  · rw [if_neg h]
    exact Or.inl rfl

theorem nodup_map_get?_ne {α β : Type} (l : List α) (f : α → β)
    (hnd : (l.map f).Nodup) (i j : Nat) (a b : α)
    (hi : l.get? i = some a) (hj : l.get? j = some b) (hij : i ≠ j) : f a ≠ f b := by
  intro he
  have hmi : (l.map f).get? i = some (f a) := by
    rw [List.get?_map, hi]
    rfl
  have hmj : (l.map f).get? j = some (f b) := by
    rw [List.get?_map, hj]
    rfl
  obtain ⟨hib, -⟩ := List.get?_eq_some.mp hmi
  have : (l.map f).get? i = (l.map f).get? j := by
    rw [hmi, hmj, he]
  exact hij (List.get?_inj hib hnd this)

theorem connectedPort_endpoint (ew : WireConnection) (iid : String) (k : Int)
    (hmem : ew.sourceNodeId = iid ∨ ew.targetNodeId = iid)
    (hcp : (if ew.sourceNodeId = iid then ew.sourcePortIndex else ew.targetPortIndex) =
      PortIndexOrId.num k) :
    ew.srcEP = (iid, PortIndexOrId.num k) ∨ ew.tgtEP = (iid, PortIndexOrId.num k) := by
  by_cases hs : ew.sourceNodeId = iid
  · rw [if_pos hs] at hcp
    left
    unfold WireConnection.srcEP
    rw [hs, hcp]
  · rw [if_neg hs] at hcp
    right
    unfold WireConnection.tgtEP
    rcases hmem with hm | hm
    · exact absurd hm hs
    · rw [hm, hcp]

theorem modified_endpoints_ne
    (ws : List WireConnection) (iid : String) (defn : DefinitionDefinition)
    (fn : List String) (hfn : fn.Nodup)
    (hpw : ws.Pairwise EndpointsDisjoint) (hnd : (ws.map (·.id)).Nodup)
    (hdW : defn.internalWires.Pairwise EndpointsDisjoint)
    (hdN : (defn.internalWires.map (·.id)).Nodup)
    (hdP : (defn.externalPorts.map (·.id)).Nodup)
    (hdB : ∀ n ∈ defn.internalNodes, n.instanceId ≠ "BOUNDARY")
    (ew1 ew2 : WireConnection)
    (h1 : ew1 ∈ ws) (h2 : ew2 ∈ ws)
    (hi1 : ew1.sourceNodeId = iid ∨ ew1.targetNodeId = iid)
    (hi2 : ew2.sourceNodeId = iid ∨ ew2.targetNodeId = iid)
    (hne : ew1.id ≠ ew2.id)
    (k1 k2 : Int) (ep1 ep2 : ExternalPort) (iw1 iw2 : WireConnection)
    (nNew1 nNew2 : String) (q1 q2 : Int)
    (hcp1 : (if ew1.sourceNodeId = iid then ew1.sourcePortIndex else ew1.targetPortIndex) =
      PortIndexOrId.num k1)
    (hk1 : ¬ k1 < 0)
    (hep1 : defn.externalPorts.get? k1.toNat = some ep1)
    (hfind1 : defn.internalWires.find? (incidentToBoundaryId ep1.id) = some iw1)
    (hlook1 : mapLookup (internalIdMap defn.internalNodes fn)
      (otherEndFromBoundary iw1).1 = some nNew1)
    (hq1 : (otherEndFromBoundary iw1).2 = PortIndexOrId.num q1)
    (hcp2 : (if ew2.sourceNodeId = iid then ew2.sourcePortIndex else ew2.targetPortIndex) =
      PortIndexOrId.num k2)
    (hk2 : ¬ k2 < 0)
    (hep2 : defn.externalPorts.get? k2.toNat = some ep2)
    (hfind2 : defn.internalWires.find? (incidentToBoundaryId ep2.id) = some iw2)
    (hlook2 : mapLookup (internalIdMap defn.internalNodes fn)
      (otherEndFromBoundary iw2).1 = some nNew2)
    (hq2 : (otherEndFromBoundary iw2).2 = PortIndexOrId.num q2) :
    ((nNew1, PortIndexOrId.num q1) : Endpoint) ≠ (nNew2, PortIndexOrId.num q2) := by
  intro hEq
  have hN : nNew1 = nNew2 := congrArg Prod.fst hEq
  have hQ : q1 = q2 := by
    have := congrArg Prod.snd hEq
    simp only at this
    injection this
  have hnid : (otherEndFromBoundary iw1).1 = (otherEndFromBoundary iw2).1 :=
    mapLookup_internalIdMap_inj defn.internalNodes fn hfn _ _ nNew2 (hN ▸ hlook1) hlook2
  have hkne : k1 ≠ k2 := by
    intro hk
    have he1 := connectedPort_endpoint ew1 iid k1 hi1 hcp1
    have he2 := connectedPort_endpoint ew2 iid k2 hi2 hcp2
    rw [← hk] at he2
    exact endpoint_of_disjoint_absurd (pairwise_disjoint_of_ne_id hpw hnd h1 h2 hne) he1 he2
  have hepne : ep1.id ≠ ep2.id := by
    apply nodup_map_get?_ne defn.externalPorts (·.id) hdP k1.toNat k2.toNat ep1 ep2 hep1 hep2
    omega
  have hnidB : (otherEndFromBoundary iw1).1 ≠ "BOUNDARY" := by
    have hk := mapLookup_internalIdMap_key_mem defn.internalNodes fn _ _ hlook1
    rcases List.mem_map.mp hk with ⟨n, hn, hne2⟩
    exact hne2 ▸ hdB n hn
  have hiwne : iw1 ≠ iw2 := by
    intro hc
    subst hc
    have hp1 := (incidentToBoundaryId_iff ep1.id iw1).mp (List.find?_some hfind1)
    have hp2 := (incidentToBoundaryId_iff ep2.id iw1).mp (List.find?_some hfind2)
    by_cases hsb : iw1.sourceNodeId = "BOUNDARY"
    · have hoe : (otherEndFromBoundary iw1).1 = iw1.targetNodeId := by
        simp [otherEndFromBoundary, hsb]
      have htB : iw1.targetNodeId ≠ "BOUNDARY" := hoe ▸ hnidB
      rcases hp1 with ⟨_, hsp1⟩ | ⟨htb1, _⟩
      · rcases hp2 with ⟨_, hsp2⟩ | ⟨htb2, _⟩
        · have := hsp1.symm.trans hsp2
          injection this with hids
          exact hepne hids
        · exact htB htb2
      · exact htB htb1
    · have hoe : (otherEndFromBoundary iw1).1 = iw1.sourceNodeId := by
        simp [otherEndFromBoundary, hsb]
      rcases hp1 with ⟨hsb1, _⟩ | ⟨_, htp1⟩
      · exact hsb hsb1
      · rcases hp2 with ⟨hsb2, _⟩ | ⟨_, htp2⟩
        · exact hsb hsb2
        · have := htp1.symm.trans htp2
          injection this with hids
          exact hepne hids
  have hiwid : iw1.id ≠ iw2.id := by
    intro hc
    exact hiwne (inj_on_ids hdN (List.mem_of_find?_eq_some hfind1)
      (List.mem_of_find?_eq_some hfind2) hc)
  have hdisj := pairwise_disjoint_of_ne_id hdW hdN (List.mem_of_find?_eq_some hfind1)
    (List.mem_of_find?_eq_some hfind2) hiwid
  have hoe1 : otherEndFromBoundary iw1 = ((otherEndFromBoundary iw1).1, PortIndexOrId.num q1) := by
    rw [← hq1]
  have hoe2 : otherEndFromBoundary iw2 = ((otherEndFromBoundary iw2).1, PortIndexOrId.num q2) := by
    rw [← hq2]
  have hsame : otherEndFromBoundary iw1 = otherEndFromBoundary iw2 := by
    rw [hoe1, hoe2, hnid, hQ]
  have hside1 : iw1.srcEP = otherEndFromBoundary iw1 ∨ iw1.tgtEP = otherEndFromBoundary iw1 := by
    rcases otherEnd_is_endpoint iw1 with h | h
    · exact Or.inl h.symm
    · exact Or.inr h.symm
  have hside2 : iw2.srcEP = otherEndFromBoundary iw1 ∨ iw2.tgtEP = otherEndFromBoundary iw1 := by
    rcases otherEnd_is_endpoint iw2 with h | h
    · exact Or.inl (hsame ▸ h.symm)
    · exact Or.inr (hsame ▸ h.symm)
  exact endpoint_of_disjoint_absurd hdisj hside1 hside2

theorem mem_expansionExternalWires_iff (s : AppState) (iid : String) (w : WireConnection) :
    w ∈ expansionExternalWires s iid ↔
      w ∈ s.wires ∧ (w.sourceNodeId = iid ∨ w.targetNodeId = iid) := by
  unfold expansionExternalWires
  simp [List.mem_filter]

theorem endpointsDisjoint_of_no_shared (w1 w2 : WireConnection)
    (h : ∀ e : Endpoint, (w1.srcEP = e ∨ w1.tgtEP = e) →
      (w2.srcEP = e ∨ w2.tgtEP = e) → False) :
    EndpointsDisjoint w1 w2 := by
  refine ⟨?_, ?_, ?_, ?_⟩ <;> intro hc
  · exact h w2.srcEP (Or.inl hc) (Or.inl rfl)
  · exact h w2.tgtEP (Or.inl hc) (Or.inr rfl)
  · exact h w2.srcEP (Or.inr hc) (Or.inl rfl)
  · exact h w2.tgtEP (Or.inr hc) (Or.inr rfl)

theorem fresh_ne_owner (x : String) (ws : List WireConnection)
    (hx : ¬ NodeOccursInWires x ws) (w : WireConnection) (hw : w ∈ ws) :
    x ≠ w.sourceNodeId ∧ x ≠ w.targetNodeId := by
  constructor
  · intro hc
    exact hx ⟨w, hw, Or.inl hc.symm⟩
  · intro hc
    exact hx ⟨w, hw, Or.inr hc.symm⟩

theorem fresh_ne_ep_owner (x : String) (ws : List WireConnection)
    (hx : ¬ NodeOccursInWires x ws) (w : WireConnection) (hw : w ∈ ws) (e : Endpoint)
    (he : w.srcEP = e ∨ w.tgtEP = e) : x ≠ e.1 := by
  rcases he with he | he
  · rw [← he]
    exact (fresh_ne_owner x ws hx w hw).1
  · rw [← he]
    exact (fresh_ne_owner x ws hx w hw).2

theorem applyWireMods_eq_of_some (iid : String) (defn : DefinitionDefinition)
    (idMap : List (String × String)) (extW : List WireConnection)
    (hnd : (extW.map (·.id)).Nodup) (w : WireConnection) (hw : w ∈ extW)
    (nNew : String) (q : Int) (hne2 : nNew ≠ "")
    (hm : modOf iid defn idMap w = some (if w.sourceNodeId = iid then
            { originalWireId := w.id, newSourceId := some nNew,
              newSourcePort := some (.num q), newTargetId := none, newTargetPort := none }
          else
            { originalWireId := w.id, newSourceId := none, newSourcePort := none,
              newTargetId := some nNew, newTargetPort := some (.num q) })) :
    applyWireMods (extW.filterMap (modOf iid defn idMap)) w =
      (if w.sourceNodeId = iid then
        { w with sourceNodeId := nNew, sourcePortIndex := .num q }
      else
        { w with targetNodeId := nNew, targetPortIndex := .num q }) := by
  apply applyWireMods_of_find_mod _ iid _ nNew q hne2
  exact find_mod_some iid defn idMap extW hnd w _ hw hm

theorem applyWireMods_shape (s : AppState) (iid : String) (defn : DefinitionDefinition)
    (fn : List String)
    (hfnF : ∀ x ∈ fn, x ≠ "BOUNDARY" ∧ x ≠ "" ∧ ¬ NodeOccursInWires x s.wires)
    (hndS : (s.wires.map (·.id)).Nodup)
    (w : WireConnection) (hw : w ∈ s.wires) :
    applyWireMods ((expansionExternalWires s iid).filterMap
      (modOf iid defn (internalIdMap defn.internalNodes fn))) w = w ∨
    ∃ (k : Int) (ep : ExternalPort) (iwb : WireConnection) (nNew : String) (q : Int),
      w ∈ expansionExternalWires s iid ∧
      (if w.sourceNodeId = iid then w.sourcePortIndex else w.targetPortIndex) =
        PortIndexOrId.num k ∧
      ¬ k < 0 ∧
      defn.externalPorts.get? k.toNat = some ep ∧
      defn.internalWires.find? (incidentToBoundaryId ep.id) = some iwb ∧
      mapLookup (internalIdMap defn.internalNodes fn) (otherEndFromBoundary iwb).1 =
        some nNew ∧
      (otherEndFromBoundary iwb).2 = PortIndexOrId.num q ∧
      nNew ∈ fn ∧
      applyWireMods ((expansionExternalWires s iid).filterMap
        (modOf iid defn (internalIdMap defn.internalNodes fn))) w =
        (if w.sourceNodeId = iid then
          { w with sourceNodeId := nNew, sourcePortIndex := .num q }
        else
          { w with targetNodeId := nNew, targetPortIndex := .num q }) := by
  have hextSub : ∀ u ∈ expansionExternalWires s iid, u ∈ s.wires := fun u hu =>
    ((mem_expansionExternalWires_iff s iid u).mp hu).1
  have hextNd : ((expansionExternalWires s iid).map (·.id)).Nodup := by
    refine List.Nodup.sublist ?_ hndS
    exact (List.filter_sublist _).map _
  by_cases hwe : w ∈ expansionExternalWires s iid
  · cases hmod : modOf iid defn (internalIdMap defn.internalNodes fn) w with
    | none =>
      left
      apply applyWireMods_of_find_none
      apply find_mod_none
      intro ew hew hid
      have : ew = w := inj_on_ids hndS (hextSub ew hew) hw hid
      rw [this]
      exact hmod
    | some m =>
      right
      rcases modOf_some_spec iid defn (internalIdMap defn.internalNodes fn) w m hmod with
        ⟨k, ep, iwb, nNew, q, hcp, hk, hep, hfind, hlook, hq, hm7⟩
      have hmemfn : nNew ∈ fn :=
        mapLookup_internalIdMap_val_mem defn.internalNodes fn _ nNew hlook
      refine ⟨k, ep, iwb, nNew, q, hwe, hcp, hk, hep, hfind, hlook, hq, hmemfn, ?_⟩
      apply applyWireMods_eq_of_some iid defn _ _ hextNd w hwe nNew q (hfnF nNew hmemfn).2.1
      rw [← hm7]
      exact hmod
  · left
    apply applyWireMods_of_find_none
    apply find_mod_none
    intro ew hew hid
    exact absurd (inj_on_ids hndS (hextSub ew hew) hw hid ▸ hew) hwe

theorem rewrite_ep_cases (w : WireConnection) (iid nNew : String) (q : Int) (e : Endpoint)
    (h : ((if w.sourceNodeId = iid then
            { w with sourceNodeId := nNew, sourcePortIndex := PortIndexOrId.num q }
          else
            { w with targetNodeId := nNew, targetPortIndex := PortIndexOrId.num q }) : WireConnection).srcEP = e ∨
         ((if w.sourceNodeId = iid then
            { w with sourceNodeId := nNew, sourcePortIndex := PortIndexOrId.num q }
          else
            { w with targetNodeId := nNew, targetPortIndex := PortIndexOrId.num q }) : WireConnection).tgtEP = e) :
    e = (nNew, PortIndexOrId.num q) ∨ w.srcEP = e ∨ w.tgtEP = e := by
  by_cases hs : w.sourceNodeId = iid
  · rw [if_pos hs] at h
    rcases h with h | h
    · exact Or.inl h.symm
    · exact Or.inr (Or.inr h)
  · rw [if_neg hs] at h
    rcases h with h | h
    · exact Or.inr (Or.inl h)
    · exact Or.inl h.symm

theorem mkNewInternalWire_srcEP_of_lookup (idMap : List (String × String))
    (len : WireConnection → Option ℚ) (wid : String) (iw : WireConnection) (a : String)
    (h : mapLookup idMap iw.sourceNodeId = some a) :
    (mkNewInternalWire idMap len wid iw).srcEP = (a, iw.sourcePortIndex) := by
  rw [mkNewInternalWire_src, h]
  rfl

theorem mkNewInternalWire_tgtEP_of_lookup (idMap : List (String × String))
    (len : WireConnection → Option ℚ) (wid : String) (iw : WireConnection) (b : String)
    (h : mapLookup idMap iw.targetNodeId = some b) :
    (mkNewInternalWire idMap len wid iw).tgtEP = (b, iw.targetPortIndex) := by
  rw [mkNewInternalWire_tgt, h]
  rfl

theorem mkNewInternalWire_disjoint (nodes : List CanvasNodeInstance) (fn : List String)
    (hfn : fn.Nodup) (len1 len2 : WireConnection → Option ℚ) (wid1 wid2 : String)
    (iw1 iw2 : WireConnection)
    (h1 : nwCreates (internalIdMap nodes fn) iw1 = true)
    (h2 : nwCreates (internalIdMap nodes fn) iw2 = true)
    (hd : EndpointsDisjoint iw1 iw2) :
    EndpointsDisjoint (mkNewInternalWire (internalIdMap nodes fn) len1 wid1 iw1)
      (mkNewInternalWire (internalIdMap nodes fn) len2 wid2 iw2) := by
  obtain ⟨-, -, a1, b1, hla1, hlb1, -, -⟩ := nwCreates_spec _ iw1 h1
  obtain ⟨-, -, a2, b2, hla2, hlb2, -, -⟩ := nwCreates_spec _ iw2 h2
  refine ⟨?_, ?_, ?_, ?_⟩
  · rw [mkNewInternalWire_srcEP_of_lookup _ _ _ _ a1 hla1,
        mkNewInternalWire_srcEP_of_lookup _ _ _ _ a2 hla2]
    intro hc
    have hA : a1 = a2 := congrArg Prod.fst hc
    have hP : iw1.sourcePortIndex = iw2.sourcePortIndex := congrArg Prod.snd hc
    have hO : iw1.sourceNodeId = iw2.sourceNodeId :=
      mapLookup_internalIdMap_inj nodes fn hfn _ _ a2 (hA ▸ hla1) hla2
    apply hd.1
    apply Prod.ext
    · exact hO
    · exact hP
  · rw [mkNewInternalWire_srcEP_of_lookup _ _ _ _ a1 hla1,
        mkNewInternalWire_tgtEP_of_lookup _ _ _ _ b2 hlb2]
    intro hc
    have hA : a1 = b2 := congrArg Prod.fst hc
    have hP : iw1.sourcePortIndex = iw2.targetPortIndex := congrArg Prod.snd hc
    have hO : iw1.sourceNodeId = iw2.targetNodeId :=
      mapLookup_internalIdMap_inj nodes fn hfn _ _ b2 (hA ▸ hla1) hlb2
    apply hd.2.1
    apply Prod.ext
    · exact hO
    · exact hP
  · rw [mkNewInternalWire_tgtEP_of_lookup _ _ _ _ b1 hlb1,
        mkNewInternalWire_srcEP_of_lookup _ _ _ _ a2 hla2]
    intro hc
    have hA : b1 = a2 := congrArg Prod.fst hc
    have hP : iw1.targetPortIndex = iw2.sourcePortIndex := congrArg Prod.snd hc
    have hO : iw1.targetNodeId = iw2.sourceNodeId :=
      mapLookup_internalIdMap_inj nodes fn hfn _ _ a2 (hA ▸ hlb1) hla2
    apply hd.2.2.1
    apply Prod.ext
    · exact hO
    · exact hP
  · rw [mkNewInternalWire_tgtEP_of_lookup _ _ _ _ b1 hlb1,
        mkNewInternalWire_tgtEP_of_lookup _ _ _ _ b2 hlb2]
    intro hc
    have hA : b1 = b2 := congrArg Prod.fst hc
    have hP : iw1.targetPortIndex = iw2.targetPortIndex := congrArg Prod.snd hc
    have hO : iw1.targetNodeId = iw2.targetNodeId :=
      mapLookup_internalIdMap_inj nodes fn hfn _ _ b2 (hA ▸ hlb1) hlb2
    apply hd.2.2.2
    apply Prod.ext
    · exact hO
    · exact hP

theorem mkNewInternalWire_not_selfloop (nodes : List CanvasNodeInstance) (fn : List String)
    (hfn : fn.Nodup) (len : WireConnection → Option ℚ) (wid : String) (iw : WireConnection)
    (h : nwCreates (internalIdMap nodes fn) iw = true) (hnsl : iw.srcEP ≠ iw.tgtEP) :
    (mkNewInternalWire (internalIdMap nodes fn) len wid iw).srcEP ≠
      (mkNewInternalWire (internalIdMap nodes fn) len wid iw).tgtEP := by
  obtain ⟨-, -, a, b, hla, hlb, -, -⟩ := nwCreates_spec _ iw h
  rw [mkNewInternalWire_srcEP_of_lookup _ _ _ _ a hla,
      mkNewInternalWire_tgtEP_of_lookup _ _ _ _ b hlb]
  intro hc
  have hA : a = b := congrArg Prod.fst hc
  have hP : iw.sourcePortIndex = iw.targetPortIndex := congrArg Prod.snd hc
  have hO : iw.sourceNodeId = iw.targetNodeId :=
    mapLookup_internalIdMap_inj nodes fn hfn _ _ b (hA ▸ hla) hlb
  apply hnsl
  apply Prod.ext
  · exact hO
  · exact hP

theorem nwList_pairwise (nodes : List CanvasNodeInstance) (fn : List String) (hfn : fn.Nodup)
    (fw : List String) (len : WireConnection → Option ℚ) (k : Nat)
    (l : List WireConnection) (hpw : l.Pairwise EndpointsDisjoint) :
    (nwList (internalIdMap nodes fn) fw len k l).Pairwise EndpointsDisjoint := by
  induction l generalizing k with
  | nil => exact List.Pairwise.nil
  | cons iw t ih =>
    obtain ⟨hhead, htail⟩ := List.pairwise_cons.mp hpw
    rw [nwList]
    by_cases hc : nwCreates (internalIdMap nodes fn) iw
    · rw [if_pos hc]
      refine List.Pairwise.cons ?_ (ih (k + 1) htail)
      intro x hx
      rcases nwList_mem_spec _ fw len (k + 1) t x hx with ⟨j, iw2, hmem, hc2, he, -, -⟩
      rw [he]
      exact mkNewInternalWire_disjoint nodes fn hfn len len _ _ iw iw2 hc hc2 (hhead iw2 hmem)
    · rw [if_neg hc]
      exact ih k htail

theorem nwList_noselfloops (nodes : List CanvasNodeInstance) (fn : List String)
    (hfn : fn.Nodup) (fw : List String) (len : WireConnection → Option ℚ) (k : Nat)
    (l : List WireConnection) (hnsl : ∀ w ∈ l, w.srcEP ≠ w.tgtEP) :
    ∀ x ∈ nwList (internalIdMap nodes fn) fw len k l, x.srcEP ≠ x.tgtEP := by
  intro x hx
  rcases nwList_mem_spec _ fw len k l x hx with ⟨j, iw, hmem, hc, he, -, -⟩
  rw [he]
  exact mkNewInternalWire_not_selfloop nodes fn hfn len _ iw hc (hnsl iw hmem)

theorem nwList_ids_nodup (idMap : List (String × String)) (fw : List String)
    (hfw : fw.Nodup) (len : WireConnection → Option ℚ) (k : Nat)
    (l : List WireConnection)
    (hlen : k + l.countP (nwCreates idMap) ≤ fw.length) :
    ((nwList idMap fw len k l).map (·.id)).Nodup := by
  induction l generalizing k with
  | nil => simp [nwList]
  | cons iw t ih =>
    rw [nwList]
    by_cases hc : nwCreates idMap iw
    · rw [if_pos hc]
      rw [List.countP_cons_of_pos _ _ hc] at hlen
      simp only [List.map_cons]
      refine List.nodup_cons.mpr ⟨?_, ih (k + 1) (by omega)⟩
      intro hmem
      rcases List.mem_map.mp hmem with ⟨x, hx, hxid⟩
      rcases nwList_id_spec idMap fw len (k + 1) t x hx with ⟨j, hk1, hj1, hjid⟩
      have hne := getD_ne_of_nodup fw hfw j k "" (by omega) (by omega) (by omega)
      apply hne
      rw [← hjid, hxid]
      rfl
    · rw [if_neg hc]
      rw [List.countP_cons_of_neg _ _ (by simpa using hc)] at hlen
      exact ih k hlen

theorem nwList_id_mem_fw (idMap : List (String × String)) (fw : List String)
    (len : WireConnection → Option ℚ) (k : Nat) (l : List WireConnection)
    (hlen : k + l.countP (nwCreates idMap) ≤ fw.length)
    (x : WireConnection) (hx : x ∈ nwList idMap fw len k l) : x.id ∈ fw := by
  rcases nwList_id_spec idMap fw len k l x hx with ⟨j, hk1, hj1, hjid⟩
  rw [hjid]
  exact getD_mem_of_lt fw j "" (by omega)

theorem nwList_owners (nodes : List CanvasNodeInstance) (fn : List String)
    (fw : List String) (len : WireConnection → Option ℚ) (k : Nat)
    (l : List WireConnection) (x : WireConnection)
    (hx : x ∈ nwList (internalIdMap nodes fn) fw len k l) :
    x.sourceNodeId ∈ fn ∧ x.targetNodeId ∈ fn := by
  rcases nwList_mem_spec _ fw len k l x hx with ⟨j, iw, hmem, hc, he, -, -⟩
  obtain ⟨-, -, a, b, hla, hlb, -, -⟩ := nwCreates_spec _ iw hc
  subst he
  constructor
  · have hsrc : (mkNewInternalWire (internalIdMap nodes fn) len (fw.getD j "") iw).sourceNodeId
        = a := by
      simp [mkNewInternalWire, hla]
    rw [hsrc]
    exact mapLookup_internalIdMap_val_mem nodes fn _ a hla
  · have htgt : (mkNewInternalWire (internalIdMap nodes fn) len (fw.getD j "") iw).targetNodeId
        = b := by
      simp [mkNewInternalWire, hlb]
    rw [htgt]
    exact mapLookup_internalIdMap_val_mem nodes fn _ b hlb

theorem rewritten_vs_new_ne (defn : DefinitionDefinition) (fn : List String) (hfn : fn.Nodup)
    (hdW : defn.internalWires.Pairwise EndpointsDisjoint)
    (hdN : (defn.internalWires.map (·.id)).Nodup)
    (ep : ExternalPort) (iwb : WireConnection)
    (hfind : defn.internalWires.find? (incidentToBoundaryId ep.id) = some iwb)
    (nNew : String) (q : Int)
    (hlook : mapLookup (internalIdMap defn.internalNodes fn)
      (otherEndFromBoundary iwb).1 = some nNew)
    (hq : (otherEndFromBoundary iwb).2 = PortIndexOrId.num q)
    (iwi : WireConnection) (hiwi : iwi ∈ defn.internalWires)
    (hc : nwCreates (internalIdMap defn.internalNodes fn) iwi = true)
    (len : WireConnection → Option ℚ) (wid : String) (e : Endpoint)
    (he1 : e = (nNew, PortIndexOrId.num q))
    (he2 : (mkNewInternalWire (internalIdMap defn.internalNodes fn) len wid iwi).srcEP = e ∨
      (mkNewInternalWire (internalIdMap defn.internalNodes fn) len wid iwi).tgtEP = e) :
    False := by
  obtain ⟨hsb, htb, a, b, hla, hlb, -, -⟩ := nwCreates_spec _ iwi hc
  have hbnd := (incidentToBoundaryId_iff ep.id iwb).mp (List.find?_some hfind)
  have hne : iwb ≠ iwi := by
    intro hEq
    subst hEq
    rcases hbnd with ⟨h, -⟩ | ⟨h, -⟩
    · exact hsb h
    · exact htb h
  have hnid : iwb.id ≠ iwi.id := fun hid =>
    hne (inj_on_ids hdN (List.mem_of_find?_eq_some hfind) hiwi hid)
  have hdisj := pairwise_disjoint_of_ne_id hdW hdN (List.mem_of_find?_eq_some hfind) hiwi hnid
  rcases he2 with he2 | he2
  · rw [mkNewInternalWire_srcEP_of_lookup _ _ _ _ a hla] at he2
    have hcomb : ((a, iwi.sourcePortIndex) : Endpoint) = (nNew, PortIndexOrId.num q) :=
      he2.trans he1
    have hA : a = nNew := congrArg Prod.fst hcomb
    have hP : iwi.sourcePortIndex = PortIndexOrId.num q := congrArg Prod.snd hcomb
    have hO : (otherEndFromBoundary iwb).1 = iwi.sourceNodeId :=
      mapLookup_internalIdMap_inj defn.internalNodes fn hfn _ _ nNew hlook (hA ▸ hla)
    have hoe : otherEndFromBoundary iwb = iwi.srcEP := by
      apply Prod.ext
      · exact hO
      · rw [hq]
        exact hP.symm
    have hside1 : iwb.srcEP = iwi.srcEP ∨ iwb.tgtEP = iwi.srcEP := by
      rcases otherEnd_is_endpoint iwb with h | h
      · exact Or.inl (h.symm.trans hoe)
      · exact Or.inr (h.symm.trans hoe)
    exact endpoint_of_disjoint_absurd hdisj hside1 (Or.inl rfl)
  · rw [mkNewInternalWire_tgtEP_of_lookup _ _ _ _ b hlb] at he2
    have hcomb : ((b, iwi.targetPortIndex) : Endpoint) = (nNew, PortIndexOrId.num q) :=
      he2.trans he1
    have hA : b = nNew := congrArg Prod.fst hcomb
    have hP : iwi.targetPortIndex = PortIndexOrId.num q := congrArg Prod.snd hcomb
    have hO : (otherEndFromBoundary iwb).1 = iwi.targetNodeId :=
      mapLookup_internalIdMap_inj defn.internalNodes fn hfn _ _ nNew hlook (hA ▸ hlb)
    have hoe : otherEndFromBoundary iwb = iwi.tgtEP := by
      apply Prod.ext
      · exact hO
      · rw [hq]
        exact hP.symm
    have hside1 : iwb.srcEP = iwi.tgtEP ∨ iwb.tgtEP = iwi.tgtEP := by
      rcases otherEnd_is_endpoint iwb with h | h
      · exact Or.inl (h.symm.trans hoe)
      · exact Or.inr (h.symm.trans hoe)
    exact endpoint_of_disjoint_absurd hdisj hside1 (Or.inr rfl)

theorem applyWireMods_preserves_disjoint (s : AppState) (iid : String)
    (defn : DefinitionDefinition) (fn : List String) (hfn : fn.Nodup)
    (hfnF : ∀ x ∈ fn, x ≠ "BOUNDARY" ∧ x ≠ "" ∧ ¬ NodeOccursInWires x s.wires)
    (hpwS : s.wires.Pairwise EndpointsDisjoint)
    (hndS : (s.wires.map (·.id)).Nodup)
    (hdW : defn.internalWires.Pairwise EndpointsDisjoint)
    (hdN : (defn.internalWires.map (·.id)).Nodup)
    (hdP : (defn.externalPorts.map (·.id)).Nodup)
    (hdB : ∀ n ∈ defn.internalNodes, n.instanceId ≠ "BOUNDARY")
    (w1 w2 : WireConnection) (h1 : w1 ∈ s.wires) (h2 : w2 ∈ s.wires)
    (hd : EndpointsDisjoint w1 w2) :
    EndpointsDisjoint
      (applyWireMods ((expansionExternalWires s iid).filterMap
        (modOf iid defn (internalIdMap defn.internalNodes fn))) w1)
      (applyWireMods ((expansionExternalWires s iid).filterMap
        (modOf iid defn (internalIdMap defn.internalNodes fn))) w2) := by
  apply endpointsDisjoint_of_no_shared
  intro e he1 he2
  have hid12 : w1.id ≠ w2.id := by
    intro hc
    have hEq : w1 = w2 := inj_on_ids hndS h1 h2 hc
    exact hd.1 (hEq ▸ rfl)
  rcases applyWireMods_shape s iid defn fn hfnF hndS w1 h1 with hf1 |
    ⟨k1, ep1, iwb1, nNew1, q1, hext1, hcp1, hk1, hep1, hfind1, hlook1, hq1, hmem1, hf1⟩
  · rw [hf1] at he1
    rcases applyWireMods_shape s iid defn fn hfnF hndS w2 h2 with hf2 |
      ⟨k2, ep2, iwb2, nNew2, q2, hext2, hcp2, hk2, hep2, hfind2, hlook2, hq2, hmem2, hf2⟩
    · rw [hf2] at he2
      exact endpoint_of_disjoint_absurd hd he1 he2
    · rw [hf2] at he2
      rcases rewrite_ep_cases w2 iid nNew2 q2 e he2 with hnew | horig
      · exact (fresh_ne_ep_owner nNew2 s.wires (hfnF nNew2 hmem2).2.2 w1 h1 e he1)
          (by rw [hnew])
      · exact endpoint_of_disjoint_absurd hd he1 horig
  · rw [hf1] at he1
    rcases rewrite_ep_cases w1 iid nNew1 q1 e he1 with hnew1 | horig1
    · rcases applyWireMods_shape s iid defn fn hfnF hndS w2 h2 with hf2 |
        ⟨k2, ep2, iwb2, nNew2, q2, hext2, hcp2, hk2, hep2, hfind2, hlook2, hq2, hmem2, hf2⟩
      · rw [hf2] at he2
        exact (fresh_ne_ep_owner nNew1 s.wires (hfnF nNew1 hmem1).2.2 w2 h2 e he2)
          (by rw [hnew1])
      · rw [hf2] at he2
        rcases rewrite_ep_cases w2 iid nNew2 q2 e he2 with hnew2 | horig2
        · have hinc1 : w1.sourceNodeId = iid ∨ w1.targetNodeId = iid :=
            ((mem_expansionExternalWires_iff s iid w1).mp hext1).2
          have hinc2 : w2.sourceNodeId = iid ∨ w2.targetNodeId = iid :=
            ((mem_expansionExternalWires_iff s iid w2).mp hext2).2
          have hK := modified_endpoints_ne s.wires iid defn fn hfn hpwS hndS hdW hdN hdP hdB
            w1 w2 h1 h2 hinc1 hinc2 hid12 k1 k2 ep1 ep2 iwb1 iwb2 nNew1 nNew2 q1 q2
            hcp1 hk1 hep1 hfind1 hlook1 hq1 hcp2 hk2 hep2 hfind2 hlook2 hq2
          exact hK (hnew1.symm.trans hnew2)
        · exact (fresh_ne_ep_owner nNew1 s.wires (hfnF nNew1 hmem1).2.2 w2 h2 e horig2)
            (by rw [hnew1])
    · rcases applyWireMods_shape s iid defn fn hfnF hndS w2 h2 with hf2 |
        ⟨k2, ep2, iwb2, nNew2, q2, hext2, hcp2, hk2, hep2, hfind2, hlook2, hq2, hmem2, hf2⟩
      · rw [hf2] at he2
        exact endpoint_of_disjoint_absurd hd horig1 he2
      · rw [hf2] at he2
        rcases rewrite_ep_cases w2 iid nNew2 q2 e he2 with hnew2 | horig2
        · exact (fresh_ne_ep_owner nNew2 s.wires (hfnF nNew2 hmem2).2.2 w1 h1 e horig1)
            (by rw [hnew2])
        · exact endpoint_of_disjoint_absurd hd horig1 horig2

theorem applyWireMods_no_selfloop (s : AppState) (iid : String)
    (defn : DefinitionDefinition) (fn : List String)
    (hfnF : ∀ x ∈ fn, x ≠ "BOUNDARY" ∧ x ≠ "" ∧ ¬ NodeOccursInWires x s.wires)
    (hndS : (s.wires.map (·.id)).Nodup)
    (w : WireConnection) (hw : w ∈ s.wires) (hnsl : w.srcEP ≠ w.tgtEP) :
    (applyWireMods ((expansionExternalWires s iid).filterMap
      (modOf iid defn (internalIdMap defn.internalNodes fn))) w).srcEP ≠
    (applyWireMods ((expansionExternalWires s iid).filterMap
      (modOf iid defn (internalIdMap defn.internalNodes fn))) w).tgtEP := by
  rcases applyWireMods_shape s iid defn fn hfnF hndS w hw with hf |
    ⟨k, ep, iwb, nNew, q, hext, hcp, hk, hep, hfind, hlook, hq, hmem, hf⟩
  · rw [hf]
    exact hnsl
  · rw [hf]
    by_cases hs : w.sourceNodeId = iid
    · rw [if_pos hs]
      intro hc
      have hA : nNew = w.targetNodeId := congrArg Prod.fst hc
      exact (fresh_ne_owner nNew s.wires (hfnF nNew hmem).2.2 w hw).2 hA
    · rw [if_neg hs]
      intro hc
      have hA : w.sourceNodeId = nNew := congrArg Prod.fst hc
      exact (fresh_ne_owner nNew s.wires (hfnF nNew hmem).2.2 w hw).1 hA.symm

theorem rewritten_vs_nw_disjoint (s : AppState) (iid : String)
    (defn : DefinitionDefinition) (fn fw : List String) (hfn : fn.Nodup)
    (hfnF : ∀ x ∈ fn, x ≠ "BOUNDARY" ∧ x ≠ "" ∧ ¬ NodeOccursInWires x s.wires)
    (hndS : (s.wires.map (·.id)).Nodup)
    (hdW : defn.internalWires.Pairwise EndpointsDisjoint)
    (hdN : (defn.internalWires.map (·.id)).Nodup)
    (len : WireConnection → Option ℚ) (k : Nat)
    (w : WireConnection) (hw : w ∈ s.wires)
    (y : WireConnection)
    (hy : y ∈ nwList (internalIdMap defn.internalNodes fn) fw len k defn.internalWires) :
    EndpointsDisjoint (applyWireMods ((expansionExternalWires s iid).filterMap
      (modOf iid defn (internalIdMap defn.internalNodes fn))) w) y := by
  apply endpointsDisjoint_of_no_shared
  intro e he1 he2
  have hyown := nwList_owners defn.internalNodes fn fw len k defn.internalWires y hy
  have howner : e.1 ∈ fn := by
    rcases he2 with he2 | he2
    · rw [← he2]
      exact hyown.1
    · rw [← he2]
      exact hyown.2
  rcases applyWireMods_shape s iid defn fn hfnF hndS w hw with hf |
    ⟨k1, ep1, iwb1, nNew1, q1, hext1, hcp1, hk1, hep1, hfind1, hlook1, hq1, hmem1, hf⟩
  · rw [hf] at he1
    exact (fresh_ne_ep_owner e.1 s.wires (hfnF e.1 howner).2.2 w hw e he1) rfl
  · rw [hf] at he1
    rcases rewrite_ep_cases w iid nNew1 q1 e he1 with hnew1 | horig1
    · rcases nwList_mem_spec _ fw len k defn.internalWires y hy with
        ⟨j, iwi, hmemi, hci, hei, -, -⟩
      subst hei
      exact rewritten_vs_new_ne defn fn hfn hdW hdN ep1 iwb1 hfind1 nNew1 q1 hlook1 hq1
        iwi hmemi hci len _ e hnew1 he2
    · exact (fresh_ne_ep_owner e.1 s.wires (hfnF e.1 howner).2.2 w hw e horig1) rfl

theorem expansionNewNodes_id_mem (atomics : List AtomicNodeDefinition)
    (defn : DefinitionDefinition) (fn : List String) (pose : ℚ × ℚ → ℚ × ℚ)
    (n : CanvasNodeInstance) (hn : n ∈ expansionNewNodes atomics defn fn pose) :
    n.instanceId ∈ fn := by
  unfold expansionNewNodes at hn
  rcases List.mem_filterMap.mp hn with ⟨p, hp, hpe⟩
  by_cases hcond : atomics.any (fun ad => decide (ad.id = p.1.definitionId))
  · rw [if_pos hcond] at hpe
    injection hpe with hpe2
    rw [← hpe2]
    exact (List.of_mem_zip hp).2
  · rw [if_neg hcond] at hpe
    exact Option.noConfusion hpe

theorem expand_preserves_inv (s : AppState) (iid : String) (fn fw : List String)
    (physOk : Bool) (pose : ℚ × ℚ → ℚ × ℚ) (len : WireConnection → Option ℚ)
    (hfnN : fn.Nodup)
    (hfnF : ∀ x ∈ fn, x ≠ "BOUNDARY" ∧ x ≠ "" ∧ ¬ NodeOccursInWires x s.wires)
    (hfwN : fw.Nodup)
    (hfwF : ∀ x ∈ fw, x ∉ s.wires.map (·.id))
    (hfwLen : ∀ d ∈ s.definitions, d.internalWires.length ≤ fw.length)
    (hinv : StateInv s) :
    StateInv (expandDefinitionInstance s iid fn fw physOk pose len) := by
  unfold expandDefinitionInstance
  split
  · exact hinv
  · split
    · exact hinv
    · split
      · exact hinv
      · split
        · exact hinv
        · rename_i inst hfind hb defn hdfind hphys
          dsimp only
          obtain ⟨hpwS, hnslS, hndS, hbpN, hcnB, hdefs⟩ := hinv
          have hdefmem : defn ∈ s.definitions := List.mem_of_find?_eq_some hdfind
          obtain ⟨hdW, hdNSL, hdN, hdP, hdB⟩ := hdefs defn hdefmem
          have hacc := expansionAcc_spec s defn iid fn fw len
          have hcount : defn.internalWires.countP
              (nwCreates (internalIdMap defn.internalNodes fn)) ≤ fw.length :=
            le_trans (List.countP_le_length _) (hfwLen defn hdefmem)
          rw [hacc.1, hacc.2.1]
          refine ⟨?_, ?_, ?_, ?_, ?_, ?_⟩
          · apply List.pairwise_append.mpr
            refine ⟨?_, ?_, ?_⟩
            · rw [List.pairwise_map]
              have hkpw := List.Pairwise.sublist
                (List.filter_sublist (l := s.wires)
                  (p := fun w => !decide (w.id ∈ (expansionAcc s defn iid fn fw len).wiresToRemove)))
                hpwS
              exact hkpw.imp_of_mem (fun {a b} ha hb2 hd =>
                applyWireMods_preserves_disjoint s iid defn fn hfnN hfnF hpwS hndS
                  hdW hdN hdP hdB a b (List.mem_of_mem_filter ha)
                  (List.mem_of_mem_filter hb2) hd)
            · exact nwList_pairwise defn.internalNodes fn hfnN fw len 0 defn.internalWires hdW
            · intro x hx y hy
              rcases List.mem_map.mp hx with ⟨w, hwk, hwe⟩
              rw [← hwe]
              exact rewritten_vs_nw_disjoint s iid defn fn fw hfnN hfnF hndS hdW hdN len 0
                w (List.mem_of_mem_filter hwk) y hy
          · intro w hw
            rcases List.mem_append.mp hw with hw | hw
            · rcases List.mem_map.mp hw with ⟨w0, hw0, hwe⟩
              rw [← hwe]
              exact applyWireMods_no_selfloop s iid defn fn hfnF hndS w0
                (List.mem_of_mem_filter hw0) (hnslS w0 (List.mem_of_mem_filter hw0))
            · exact nwList_noselfloops defn.internalNodes fn hfnN fw len 0
                defn.internalWires hdNSL w hw
          · rw [List.map_append]
            have hidlist : ((List.filter
                (fun w => !decide (w.id ∈ (expansionAcc s defn iid fn fw len).wiresToRemove))
                s.wires).map (applyWireMods ((expansionExternalWires s iid).filterMap
                  (modOf iid defn (internalIdMap defn.internalNodes fn))))).map (·.id) =
                (List.filter
                (fun w => !decide (w.id ∈ (expansionAcc s defn iid fn fw len).wiresToRemove))
                s.wires).map (·.id) := by
              rw [List.map_map]
              exact List.map_congr_left (fun w _ => applyWireMods_id _ w)
            rw [hidlist]
            apply List.Nodup.append
            · exact List.Nodup.sublist ((List.filter_sublist _).map _) hndS
            · exact nwList_ids_nodup _ fw hfwN len 0 defn.internalWires (by omega)
            · intro a ha hb2
              rcases List.mem_map.mp hb2 with ⟨y, hy, hye⟩
              have hafw : a ∈ fw := hye ▸
                nwList_id_mem_fw _ fw len 0 defn.internalWires (by omega) y hy
              have hsw : a ∈ s.wires.map (·.id) := by
                rcases List.mem_map.mp ha with ⟨w, hwk, hwe⟩
                exact hwe ▸ List.mem_map.mpr ⟨w, List.mem_of_mem_filter hwk, rfl⟩
              exact hfwF a hafw hsw
          · exact hbpN
          · intro n hn
            rcases List.mem_append.mp hn with hn | hn
            · exact hcnB n (List.mem_of_mem_filter hn)
            · exact (hfnF n.instanceId
                (expansionNewNodes_id_mem s.atomicNodes defn fn pose n hn)).1
          · exact hdefs

theorem addAtomicNode_preserves_inv (s : AppState) (ad : AtomicNodeDefinition)
    (hinv : StateInv s) : StateInv (addAtomicNode s ad) := hinv

theorem deleteAtomicNode_preserves_inv (s : AppState) (did : String)
    (hinv : StateInv s) : StateInv (deleteAtomicNode s did) := by
  obtain ⟨h1, h2, h3, h4, h5, h6⟩ := hinv
  exact ⟨h1, h2, h3, h4, fun n hn => h5 n (List.mem_of_mem_filter hn), h6⟩

theorem addNodeToCanvas_preserves_inv (s : AppState) (raw iid : String) (x y : ℚ)
    (hiid : iid ≠ "BOUNDARY") (hinv : StateInv s) :
    StateInv (addNodeToCanvas s raw iid x y) := by
  unfold addNodeToCanvas
  obtain ⟨h1, h2, h3, h4, h5, h6⟩ := hinv
  split
  · dsimp only
    split
    · refine ⟨h1, h2, h3, h4, ?_, h6⟩
      intro n hn
      rcases List.mem_append.mp hn with hn | hn
      · exact h5 n hn
      · rw [List.mem_singleton] at hn
        rw [hn]
        exact hiid
    · exact ⟨h1, h2, h3, h4, h5, h6⟩
  · split
    · refine ⟨h1, h2, h3, h4, ?_, h6⟩
      intro n hn
      rcases List.mem_append.mp hn with hn | hn
      · exact h5 n hn
      · rw [List.mem_singleton] at hn
        rw [hn]
        exact hiid
    · exact ⟨h1, h2, h3, h4, h5, h6⟩

theorem deleteCanvasNode_preserves_inv (s : AppState) (iid : String)
    (hinv : StateInv s) : StateInv (deleteCanvasNode s iid) := by
  obtain ⟨h1, h2, h3, h4, h5, h6⟩ := hinv
  refine ⟨List.Pairwise.sublist (List.filter_sublist _) h1,
    fun w hw => h2 w (List.mem_of_mem_filter hw),
    List.Nodup.sublist ((List.filter_sublist _).map _) h3, h4,
    fun n hn => h5 n (List.mem_of_mem_filter hn), h6⟩

theorem finishWire_preserves_inv (s : AppState) (src : Endpoint) (target : Option Endpoint)
    (wid : String) (physLen : Option ℚ) (hwid : wid ∉ s.wires.map (·.id))
    (hinv : StateInv s) : StateInv (finishWire s src target wid physLen) := by
  unfold finishWire
  obtain ⟨h1, h2, h3, h4, h5, h6⟩ := hinv
  cases target with
  | none => exact ⟨h1, h2, h3, h4, h5, h6⟩
  | some tgt =>
    dsimp only
    by_cases hst : src = tgt
    · rw [if_pos hst]
      exact ⟨h1, h2, h3, h4, h5, h6⟩
    · rw [if_neg hst]
      by_cases hocc : (isOccupied s.wires src || isOccupied s.wires tgt) = true
      · rw [if_pos hocc]
        exact ⟨h1, h2, h3, h4, h5, h6⟩
      · rw [if_neg hocc]
        rw [Bool.or_eq_true, not_or] at hocc
        have hocc1 : ∀ w ∈ s.wires, ¬(w.srcEP = src ∨ w.tgtEP = src) := by
          intro w hw hc
          apply hocc.1
          unfold isOccupied
          rw [List.any_eq_true]
          refine ⟨w, hw, ?_⟩
          rcases hc with hc | hc <;> simp [hc]
        have hocc2 : ∀ w ∈ s.wires, ¬(w.srcEP = tgt ∨ w.tgtEP = tgt) := by
          intro w hw hc
          apply hocc.2
          unfold isOccupied
          rw [List.any_eq_true]
          refine ⟨w, hw, ?_⟩
          rcases hc with hc | hc <;> simp [hc]
        refine ⟨?_, ?_, ?_, h4, h5, h6⟩
        · apply List.pairwise_append.mpr
          refine ⟨h1, List.pairwise_singleton _ _, ?_⟩
          intro w hw y hy
          rw [List.mem_singleton] at hy
          subst hy
          refine ⟨?_, ?_, ?_, ?_⟩
          · intro hc
            exact hocc1 w hw (Or.inl hc)
          · intro hc
            exact hocc2 w hw (Or.inl hc)
          · intro hc
            exact hocc1 w hw (Or.inr hc)
          · intro hc
            exact hocc2 w hw (Or.inr hc)
        · intro w hw
          rcases List.mem_append.mp hw with hw | hw
          · exact h2 w hw
          · rw [List.mem_singleton] at hw
            subst hw
            exact fun hc => hst hc
        · rw [List.map_append]
          refine List.Nodup.append h3 (List.nodup_singleton _) ?_
          intro a ha hb
          simp only [List.map_cons, List.map_nil, List.mem_singleton] at hb
          subst hb
          exact hwid ha

theorem deleteWire_preserves_inv (s : AppState) (wid : String)
    (hinv : StateInv s) : StateInv (deleteWire s wid) := by
  obtain ⟨h1, h2, h3, h4, h5, h6⟩ := hinv
  exact ⟨List.Pairwise.sublist (List.filter_sublist _) h1,
    fun w hw => h2 w (List.mem_of_mem_filter hw),
    List.Nodup.sublist ((List.filter_sublist _).map _) h3, h4, h5, h6⟩

theorem toggleBoundary_preserves_inv (s : AppState) (hinv : StateInv s) :
    StateInv (toggleBoundary s) := by
  unfold toggleBoundary
  obtain ⟨h1, h2, h3, h4, h5, h6⟩ := hinv
  split
  · exact ⟨List.Pairwise.sublist (List.filter_sublist _) h1,
      fun w hw => h2 w (List.mem_of_mem_filter hw),
      List.Nodup.sublist ((List.filter_sublist _).map _) h3, List.nodup_nil, h5, h6⟩
  · exact ⟨h1, h2, h3, h4, h5, h6⟩

theorem addBoundaryPort_preserves_inv (s : AppState) (p : BoundaryPort)
    (hp : p.id ∉ s.boundaryPorts.map (·.id)) (hinv : StateInv s) :
    StateInv (addBoundaryPort s p) := by
  unfold addBoundaryPort
  obtain ⟨h1, h2, h3, h4, h5, h6⟩ := hinv
  split
  · refine ⟨h1, h2, h3, ?_, h5, h6⟩
    rw [List.map_append]
    refine List.Nodup.append h4 (List.nodup_singleton _) ?_
    intro a ha hb
    simp only [List.map_cons, List.map_nil, List.mem_singleton] at hb
    subst hb
    exact hp ha
  · exact ⟨h1, h2, h3, h4, h5, h6⟩

theorem deleteBoundaryPort_preserves_inv (s : AppState) (pid : String)
    (hinv : StateInv s) : StateInv (deleteBoundaryPort s pid) := by
  obtain ⟨h1, h2, h3, h4, h5, h6⟩ := hinv
  exact ⟨List.Pairwise.sublist (List.filter_sublist _) h1,
    fun w hw => h2 w (List.mem_of_mem_filter hw),
    List.Nodup.sublist ((List.filter_sublist _).map _) h3,
    List.Nodup.sublist ((List.filter_sublist _).map _) h4, h5, h6⟩

theorem handleAddDefinitionClick_captured_eq (s : AppState) (cand : DefinitionCandidate)
    (h : handleAddDefinitionClick s = .captured cand) :
    cand = ⟨s.canvasNodes, s.wires, s.boundaryPorts⟩ := by
  unfold handleAddDefinitionClick at h
  by_cases h1 : (!s.isBoundaryActive) = true
  · rw [if_pos h1] at h
    exact ValidateResult.noConfusion h
  · rw [if_neg h1] at h
    by_cases h2 : s.boundaryPorts.length = 0
    · rw [if_pos h2] at h
      exact ValidateResult.noConfusion h
    · rw [if_neg h2] at h
      dsimp only at h
      by_cases h3 : (danglingEndpoints s).isEmpty = true
      · rw [if_pos h3] at h
        injection h with h4
        exact h4.symm
      · rw [if_neg h3] at h
        exact ValidateResult.noConfusion h

theorem addDefinition_state_preserves_inv (s : AppState) (name color did : String)
    (hinv : StateInv s) :
    StateInv (addDefinition s ⟨s.canvasNodes, s.wires, s.boundaryPorts⟩ name color did) := by
  obtain ⟨h1, h2, h3, h4, h5, h6⟩ := hinv
  unfold addDefinition
  dsimp only
  refine ⟨List.Pairwise.sublist (List.filter_sublist _) h1,
    fun w hw => h2 w (List.mem_of_mem_filter hw),
    List.Nodup.sublist ((List.filter_sublist _).map _) h3,
    List.nodup_nil, fun n hn => absurd hn (List.not_mem_nil n), ?_⟩
  intro d hd
  rcases List.mem_append.mp hd with hd | hd
  · exact h6 d hd
  · rw [List.mem_singleton] at hd
    subst hd
    refine ⟨h1, h2, h3, ?_, h5⟩
    show (((s.boundaryPorts.map (computeExternalPort s.atomicNodes
      ⟨s.canvasNodes, s.wires, s.boundaryPorts⟩)).mergeSort angleLe).map
        (fun x => x.id)).Nodup
    have hmm : (s.boundaryPorts.map (computeExternalPort s.atomicNodes
        ⟨s.canvasNodes, s.wires, s.boundaryPorts⟩)).map (fun x => x.id) =
        s.boundaryPorts.map (fun p => p.id) := by
      rw [List.map_map]
      exact List.map_congr_left (fun p _ => rfl)
    have hperm := (List.mergeSort_perm (s.boundaryPorts.map (computeExternalPort s.atomicNodes
      ⟨s.canvasNodes, s.wires, s.boundaryPorts⟩)) angleLe).map (fun x => x.id)
    rw [hmm] at hperm
    exact hperm.nodup_iff.mpr h4

theorem extractStep_preserves_inv (s : AppState) (name color did : String)
    (hinv : StateInv s) : StateInv (extractStep s name color did) := by
  unfold extractStep
  cases hval : handleAddDefinitionClick s with
  | inactiveBoundary => exact hinv
  | emptyBoundary => exact hinv
  | danglingPorts d => exact hinv
  | captured cand =>
    have hc := handleAddDefinitionClick_captured_eq s cand hval
    subst hc
    exact addDefinition_state_preserves_inv s name color did hinv

theorem EditorStep_preserves_inv {s t : AppState} (h : EditorStep s t)
    (hinv : StateInv s) : StateInv t := by
  cases h with
  | addAtomic ad => exact addAtomicNode_preserves_inv s ad hinv
  | deleteAtomic did => exact deleteAtomicNode_preserves_inv s did hinv
  | addNode raw iid x y hiid => exact addNodeToCanvas_preserves_inv s raw iid x y hiid hinv
  | deleteNode iid => exact deleteCanvasNode_preserves_inv s iid hinv
  | finish src target wid len hwid =>
    exact finishWire_preserves_inv s src target wid len hwid hinv
  | delWire wid => exact deleteWire_preserves_inv s wid hinv
  | toggle => exact toggleBoundary_preserves_inv s hinv
  | addBP p hp => exact addBoundaryPort_preserves_inv s p hp hinv
  | delBP pid => exact deleteBoundaryPort_preserves_inv s pid hinv
  | extract name color did => exact extractStep_preserves_inv s name color did hinv
  | expand iid fn fw physOk pose len hfnN hfnF hfwN hfwF hfwLen =>
    exact expand_preserves_inv s iid fn fw physOk pose len hfnN hfnF hfwN hfwF hfwLen hinv

theorem StateInv_initState : StateInv initState :=
  ⟨List.Pairwise.nil, fun w hw => absurd hw (List.not_mem_nil w), List.nodup_nil,
   List.nodup_nil, fun n hn => absurd hn (List.not_mem_nil n),
   fun d hd => absurd hd (List.not_mem_nil d)⟩

theorem reachable_StateInv {s : AppState} (h : EditorReachable s) : StateInv s := by
  induction h with
  | init => exact StateInv_initState
  | step hr hs ih => exact EditorStep_preserves_inv hs ih

/-- **C1.** For every state reachable by the editor operations (adding and
deleting atomic definitions and canvas nodes, finishing a wire, deleting a
wire, toggling the boundary, adding and deleting boundary ports, extracting a
definition, and expanding a definition instance), no two wires share an
endpoint — the same `(nodeOrBoundaryId, portIndexOrId)` pair never appears as
source or target of two distinct wires — and no wire has its source endpoint
equal to its target endpoint. -/
theorem reachable_wires_disjoint_and_no_selfloops (s : AppState)
    (h : EditorReachable s) :
    s.wires.Pairwise EndpointsDisjoint ∧ NoSelfLoops s.wires :=
  ⟨(reachable_StateInv h).1, (reachable_StateInv h).2.1⟩

theorem reachable_wires_disjoint_and_no_selfloops_witness :
    EditorReachable (finishWire initState ("a", PortIndexOrId.num 0)
        (some ("b", PortIndexOrId.num 0)) "w0" none) ∧
      ((finishWire initState ("a", PortIndexOrId.num 0)
        (some ("b", PortIndexOrId.num 0)) "w0" none).wires.Pairwise EndpointsDisjoint ∧
       NoSelfLoops (finishWire initState ("a", PortIndexOrId.num 0)
        (some ("b", PortIndexOrId.num 0)) "w0" none).wires) := by
  have hreach : EditorReachable (finishWire initState ("a", PortIndexOrId.num 0)
      (some ("b", PortIndexOrId.num 0)) "w0" none) :=
    EditorReachable.step EditorReachable.init
      (EditorStep.finish initState ("a", PortIndexOrId.num 0)
        (some ("b", PortIndexOrId.num 0)) "w0" none (by decide))
  exact ⟨hreach, reachable_wires_disjoint_and_no_selfloops _ hreach⟩

theorem mem_zip_left {α β : Type} (l1 : List α) (l2 : List β) (a : α)
    (ha : a ∈ l1) (hlen : l1.length ≤ l2.length) : ∃ b, (a, b) ∈ l1.zip l2 := by
  induction l1 generalizing l2 with
  | nil => simp at ha
  | cons x t ih =>
    cases l2 with
    | nil => simp at hlen
    | cons y u =>
      rw [List.zip_cons_cons]
      rcases List.mem_cons.mp ha with ha | ha
      · exact ⟨y, by rw [ha]; exact List.mem_cons_self _ _⟩
      · rcases ih u ha (by simpa using Nat.le_of_succ_le_succ hlen) with ⟨b, hb⟩
        exact ⟨b, List.mem_cons_of_mem _ hb⟩

theorem lookup_isSome_of_key_mem (l : List (String × String)) (x : String)
    (h : x ∈ l.map Prod.fst) : ∃ y, l.lookup x = some y := by
  induction l with
  | nil => simp at h
  | cons p t ih =>
    rw [List.lookup]
    cases hk : x == p.1
    · simp only [hk]
      apply ih
      rw [List.map_cons] at h
      rcases List.mem_cons.mp h with h2 | h2
      · exact absurd (beq_iff_eq.mpr h2) (by simp [hk])
      · exact h2
    · simp only [hk]
      exact ⟨p.2, rfl⟩

theorem mapLookup_covers (nodes : List CanvasNodeInstance) (fn : List String) (x : String)
    (hx : x ∈ nodes.map (·.instanceId)) (hlen : nodes.length ≤ fn.length) :
    ∃ y, mapLookup (internalIdMap nodes fn) x = some y ∧ y ∈ fn := by
  rcases List.mem_map.mp hx with ⟨n, hn, hnx⟩
  rcases mem_zip_left nodes fn n hn hlen with ⟨f, hzip⟩
  have hkey : x ∈ (internalIdMap nodes fn).reverse.map Prod.fst := by
    rw [List.map_reverse, List.mem_reverse]
    exact List.mem_map.mpr ⟨(n.instanceId, f), List.mem_map.mpr ⟨(n, f), hzip, rfl⟩, hnx⟩
  rcases lookup_isSome_of_key_mem _ x hkey with ⟨y, hy⟩
  exact ⟨y, hy, mapLookup_internalIdMap_val_mem nodes fn x y hy⟩

theorem nwList_mem_of_creates (idMap : List (String × String)) (fw : List String)
    (len : WireConnection → Option ℚ) (k : Nat) (l : List WireConnection)
    (iw : WireConnection) (hiw : iw ∈ l) (hc : nwCreates idMap iw = true) :
    ∃ j, mkNewInternalWire idMap len (fw.getD j "") iw ∈ nwList idMap fw len k l := by
  induction l generalizing k with
  | nil => simp at hiw
  | cons a t ih =>
    rw [nwList]
    rcases List.mem_cons.mp hiw with ha | ht
    · subst ha
      rw [if_pos hc]
      exact ⟨k, List.mem_cons_self _ _⟩
    · by_cases hca : nwCreates idMap a
      · rw [if_pos hca]
        rcases ih (k + 1) ht with ⟨j, hj⟩
        exact ⟨j, List.mem_cons_of_mem _ hj⟩
      · rw [if_neg hca]
        exact ih k ht

theorem nwCreates_of (idMap : List (String × String)) (iw : WireConnection) (a b : String)
    (hs : iw.sourceNodeId ≠ "BOUNDARY") (ht : iw.targetNodeId ≠ "BOUNDARY")
    (hla : mapLookup idMap iw.sourceNodeId = some a)
    (hlb : mapLookup idMap iw.targetNodeId = some b)
    (ha : a ≠ "") (hb : b ≠ "") : nwCreates idMap iw = true := by
  unfold nwCreates
  rw [hla, hlb]
  simp [hs, ht, ha, hb]

theorem zip_filterMap_newNodes_map (atomics : List AtomicNodeDefinition)
    (pose : ℚ × ℚ → ℚ × ℚ) :
    ∀ (nodes : List CanvasNodeInstance) (fn : List String),
      (∀ n ∈ nodes, atomics.any (fun ad => decide (ad.id = n.definitionId)) = true) →
      nodes.length ≤ fn.length →
      ((nodes.zip fn).filterMap (fun p =>
        if atomics.any (fun ad => decide (ad.id = p.1.definitionId)) then
          some ({ instanceId := p.2, definitionId := p.1.definitionId,
                  x := (pose (p.1.x, p.1.y)).1, y := (pose (p.1.x, p.1.y)).2,
                  isDefinitionInstance := false } : CanvasNodeInstance)
        else none)).map (·.definitionId) = nodes.map (·.definitionId)
  | [], fn, _, _ => by simp
  | n :: t, fn, hres, hlen => by
    cases fn with
    | nil => exact absurd hlen (by simp)
    | cons f fs =>
      rw [List.zip_cons_cons, List.filterMap_cons, if_pos (hres n (List.mem_cons_self n t))]
      simp only [List.map_cons]
      rw [zip_filterMap_newNodes_map atomics pose t fs
        (fun m hm => hres m (List.mem_cons_of_mem n hm)) (by simpa using hlen)]

theorem expansionNewNodes_map_definitionId (atomics : List AtomicNodeDefinition)
    (defn : DefinitionDefinition) (fn : List String) (pose : ℚ × ℚ → ℚ × ℚ)
    (hres : ∀ n ∈ defn.internalNodes,
      atomics.any (fun ad => decide (ad.id = n.definitionId)) = true)
    (hlen : defn.internalNodes.length ≤ fn.length) :
    (expansionNewNodes atomics defn fn pose).map (·.definitionId) =
      defn.internalNodes.map (·.definitionId) := by
  unfold expansionNewNodes
  exact zip_filterMap_newNodes_map atomics pose defn.internalNodes fn hres hlen

theorem expandDefinitionInstance_eq (s : AppState) (iid : String) (fn fw : List String)
    (pose : ℚ × ℚ → ℚ × ℚ) (len : WireConnection → Option ℚ)
    (inst : CanvasNodeInstance) (defn : DefinitionDefinition)
    (hfind : s.canvasNodes.find? (fun n => decide (n.instanceId = iid)) = some inst)
    (hb : inst.isDefinitionInstance = true)
    (hdfind : s.definitions.find? (fun d => decide (d.id = inst.definitionId)) = some defn) :
    expandDefinitionInstance s iid fn fw true pose len =
      { s with
        canvasNodes := s.canvasNodes.filter (fun n => decide (n.instanceId ≠ iid)) ++
          expansionNewNodes s.atomicNodes defn fn pose,
        wires := ((s.wires.filter (fun w =>
          !(decide (w.id ∈ (expansionAcc s defn iid fn fw len).wiresToRemove)))).map
          (applyWireMods (expansionAcc s defn iid fn fw len).wiresToModify)) ++
          (expansionAcc s defn iid fn fw len).newWires } := by
  unfold expandDefinitionInstance
  rw [hfind]
  dsimp only
  rw [hb, hdfind]
  dsimp only
  rfl

/-- **C2 (amended).** For a validated boundary session in which every boundary
port is wired, every candidate wire either ends on the boundary or on a
candidate node (with numeric ports on node ends and no wire joining two
boundary ports), extracting the definition and expanding a placed instance of
it reproduces the pre-extraction graph up to the id renaming given by the
generated fresh node ids: (a) the expanded canvas keeps all other nodes and
re-creates one node per candidate node with the same definition reference,
(b) every internal node-to-node wire reappears between the renamed endpoints,
and (c) a wire attached to external port `k` of the instance is re-attached
to the renamed copy of the internal port that was wired to the corresponding
boundary port before extraction.  (Wires between two boundary ports are not
reproduced — see the counterexample — which is why the no-boundary-to-boundary
hypothesis is required.) -/
theorem roundTrip_expand_reproduces (atomics : List AtomicNodeDefinition)
    (cand : DefinitionCandidate) (name color did : String)
    (s : AppState) (iid : String) (inst : CanvasNodeInstance)
    (fn fw : List String) (pose : ℚ × ℚ → ℚ × ℚ) (len : WireConnection → Option ℚ)
    (hfind : s.canvasNodes.find? (fun n => decide (n.instanceId = iid)) = some inst)
    (hbI : inst.isDefinitionInstance = true)
    (hdfind : s.definitions.find? (fun d => decide (d.id = inst.definitionId)) =
      some (extractDefinition atomics cand name color did))
    (hndS : (s.wires.map (·.id)).Nodup)
    (hdisjids : ∀ w ∈ s.wires, w.id ∉ cand.wires.map (·.id))
    (hwiredB : ∀ p ∈ cand.ports, ∃ cw ∈ cand.wires, incidentToBoundaryId p.id cw = true)
    (hclosed : ∀ cw ∈ cand.wires,
      (cw.sourceNodeId = "BOUNDARY" ∨ cw.sourceNodeId ∈ cand.nodes.map (·.instanceId)) ∧
      (cw.targetNodeId = "BOUNDARY" ∨ cw.targetNodeId ∈ cand.nodes.map (·.instanceId)))
    (hwf : ∀ cw ∈ cand.wires, WireWellFormed cw)
    (hnob2b : ∀ cw ∈ cand.wires,
      ¬(cw.sourceNodeId = "BOUNDARY" ∧ cw.targetNodeId = "BOUNDARY"))
    (hfnLen : cand.nodes.length ≤ fn.length)
    (hfnne : ∀ x ∈ fn, x ≠ "")
    (hres : ∀ n ∈ cand.nodes,
      s.atomicNodes.any (fun ad => decide (ad.id = n.definitionId)) = true) :
    ((expandDefinitionInstance s iid fn fw true pose len).canvasNodes =
      s.canvasNodes.filter (fun n => decide (n.instanceId ≠ iid)) ++
        expansionNewNodes s.atomicNodes
          (extractDefinition atomics cand name color did) fn pose ∧
     (expansionNewNodes s.atomicNodes
        (extractDefinition atomics cand name color did) fn pose).map (·.definitionId) =
       cand.nodes.map (·.definitionId)) ∧
    (∀ iw ∈ cand.wires, iw.sourceNodeId ≠ "BOUNDARY" → iw.targetNodeId ≠ "BOUNDARY" →
      ∃ w' ∈ (expandDefinitionInstance s iid fn fw true pose len).wires, ∃ a b : String,
        mapLookup (internalIdMap cand.nodes fn) iw.sourceNodeId = some a ∧
        mapLookup (internalIdMap cand.nodes fn) iw.targetNodeId = some b ∧
        w'.srcEP = (a, iw.sourcePortIndex) ∧ w'.tgtEP = (b, iw.targetPortIndex)) ∧
    (∀ w ∈ s.wires, ∀ (k : Int) (ep : ExternalPort),
      (w.sourceNodeId = iid ∨ w.targetNodeId = iid) →
      (if w.sourceNodeId = iid then w.sourcePortIndex else w.targetPortIndex) =
        PortIndexOrId.num k →
      ¬ k < 0 →
      (extractDefinition atomics cand name color did).externalPorts.get? k.toNat =
        some ep →
      ∃ (cw : WireConnection) (nNew : String) (q : Int),
        cand.wires.find? (incidentToBoundaryId ep.id) = some cw ∧
        mapLookup (internalIdMap cand.nodes fn) (otherEndFromBoundary cw).1 = some nNew ∧
        (otherEndFromBoundary cw).2 = PortIndexOrId.num q ∧
        (if w.sourceNodeId = iid then
          { w with sourceNodeId := nNew, sourcePortIndex := PortIndexOrId.num q }
        else
          { w with targetNodeId := nNew, targetPortIndex := PortIndexOrId.num q }) ∈
          (expandDefinitionInstance s iid fn fw true pose len).wires) := by
  have heq := expandDefinitionInstance_eq s iid fn fw pose len inst
    (extractDefinition atomics cand name color did) hfind hbI hdfind
  have hacc := expansionAcc_spec s (extractDefinition atomics cand name color did) iid fn fw len
  refine ⟨⟨?_, ?_⟩, ?_, ?_⟩
  · rw [heq]
  · exact expansionNewNodes_map_definitionId s.atomicNodes _ fn pose hres hfnLen
  · intro iw hiw hsB htB
    have hsrcMem : iw.sourceNodeId ∈ cand.nodes.map (·.instanceId) :=
      Or.resolve_left (hclosed iw hiw).1 hsB
    have htgtMem : iw.targetNodeId ∈ cand.nodes.map (·.instanceId) :=
      Or.resolve_left (hclosed iw hiw).2 htB
    rcases mapLookup_covers cand.nodes fn iw.sourceNodeId hsrcMem hfnLen with ⟨a, hla, hafn⟩
    rcases mapLookup_covers cand.nodes fn iw.targetNodeId htgtMem hfnLen with ⟨b, hlb, hbfn⟩
    have hc := nwCreates_of (internalIdMap cand.nodes fn) iw a b hsB htB hla hlb
      (hfnne a hafn) (hfnne b hbfn)
    rcases nwList_mem_of_creates (internalIdMap cand.nodes fn) fw len 0 cand.wires
      iw hiw hc with ⟨j, hj⟩
    refine ⟨mkNewInternalWire (internalIdMap cand.nodes fn) len (fw.getD j "") iw, ?_,
      a, b, hla, hlb, mkNewInternalWire_srcEP_of_lookup _ _ _ _ a hla,
      mkNewInternalWire_tgtEP_of_lookup _ _ _ _ b hlb⟩
    rw [heq]
    refine List.mem_append.mpr (Or.inr ?_)
    rw [hacc.1]
    exact hj
  · intro w hw k ep hinc hcp hk hget
    have hepmem : ep ∈ (extractDefinition atomics cand name color did).externalPorts :=
      List.get?_mem hget
    have hepmem2 : ep ∈ cand.ports.map (computeExternalPort atomics cand) :=
      ((List.mergeSort_perm _ angleLe).mem_iff).mp hepmem
    rcases List.mem_map.mp hepmem2 with ⟨p, hp, hpe⟩
    have hpid : ep.id = p.id := by
      rw [← hpe]
      rfl
    rcases hwiredB p hp with ⟨cw0, hcw0, hinc0⟩
    have hfs : (cand.wires.find? (incidentToBoundaryId ep.id)).isSome := by
      rw [List.find?_isSome]
      refine ⟨cw0, hcw0, ?_⟩
      rw [hpid]
      exact hinc0
    rcases Option.isSome_iff_exists.mp hfs with ⟨cw, hfindcw⟩
    have hcwmem : cw ∈ cand.wires := List.mem_of_find?_eq_some hfindcw
    have hother : (otherEndFromBoundary cw).1 ≠ "BOUNDARY" ∧
        (otherEndFromBoundary cw).1 ∈ cand.nodes.map (·.instanceId) ∧
        ∃ q : Int, (otherEndFromBoundary cw).2 = PortIndexOrId.num q := by
      by_cases hsb : cw.sourceNodeId = "BOUNDARY"
      · have h1 : otherEndFromBoundary cw = cw.tgtEP := by
          unfold otherEndFromBoundary
          rw [if_pos hsb]
          rfl
        have htB : cw.targetNodeId ≠ "BOUNDARY" := fun hc => hnob2b cw hcwmem ⟨hsb, hc⟩
        refine ⟨?_, ?_, ?_⟩
        · rw [h1]
          exact htB
        · rw [h1]
          exact Or.resolve_left (hclosed cw hcwmem).2 htB
        · rw [h1]
          exact (hwf cw hcwmem).2 htB
      · have h1 : otherEndFromBoundary cw = cw.srcEP := by
          unfold otherEndFromBoundary
          rw [if_neg hsb]
          rfl
        refine ⟨?_, ?_, ?_⟩
        · rw [h1]
          exact hsb
        · rw [h1]
          exact Or.resolve_left (hclosed cw hcwmem).1 hsb
        · rw [h1]
          exact (hwf cw hcwmem).1 hsb
    obtain ⟨hoB, hoMem, q, hq⟩ := hother
    rcases mapLookup_covers cand.nodes fn _ hoMem hfnLen with ⟨nNew, hlook, hnfn⟩
    refine ⟨cw, nNew, q, hfindcw, hlook, hq, ?_⟩
    have hfindcw2 : (extractDefinition atomics cand name color did).internalWires.find?
        (incidentToBoundaryId ep.id) = some cw := hfindcw
    have hlook2 : mapLookup (internalIdMap
        (extractDefinition atomics cand name color did).internalNodes fn)
        (otherEndFromBoundary cw).1 = some nNew := hlook
    have hmod : modOf iid (extractDefinition atomics cand name color did)
        (internalIdMap cand.nodes fn) w = some
        (if w.sourceNodeId = iid then
           { originalWireId := w.id, newSourceId := some nNew,
             newSourcePort := some (.num q), newTargetId := none, newTargetPort := none }
         else
           { originalWireId := w.id, newSourceId := none, newSourcePort := none,
             newTargetId := some nNew, newTargetPort := some (.num q) }) := by
      unfold modOf
      rw [hcp]
      dsimp only
      rw [if_neg hk, hget]
      dsimp only
      rw [hfindcw2]
      dsimp only
      rw [hlook, hq]
    have hwe : w ∈ expansionExternalWires s iid :=
      (mem_expansionExternalWires_iff s iid w).mpr ⟨hw, hinc⟩
    have hextNd : ((expansionExternalWires s iid).map (·.id)).Nodup :=
      List.Nodup.sublist ((List.filter_sublist _).map _) hndS
    have hfw := applyWireMods_eq_of_some iid
      (extractDefinition atomics cand name color did)
      (internalIdMap cand.nodes fn) (expansionExternalWires s iid) hextNd w hwe
      nNew q (hfnne nNew hnfn) hmod
    have hnotR : w.id ∉ (expansionAcc s
        (extractDefinition atomics cand name color did) iid fn fw len).wiresToRemove := by
      apply hacc.2.2.2 w.id
      · intro hc
        exact hdisjids w hw hc
      · intro ew hew hid
        have hewe : ew = w := inj_on_ids hndS
          ((mem_expansionExternalWires_iff s iid ew).mp hew).1 hw hid
        rw [hewe]
        show (modOf iid (extractDefinition atomics cand name color did)
          (internalIdMap cand.nodes fn) w).isSome = true
        rw [hmod]
        rfl
    rw [heq]
    refine List.mem_append.mpr (Or.inl ?_)
    rw [hacc.2.1]
    apply List.mem_map.mpr
    refine ⟨w, ?_, ?_⟩
    · apply List.mem_filter.mpr
      refine ⟨hw, ?_⟩
      simpa using hnotR
    · exact hfw

theorem roundTrip_expand_reproduces_witness :
    (⟨"x1", "z", PortIndexOrId.num 0, "f1", PortIndexOrId.num 0, none⟩ : WireConnection) ∈
      (expandDefinitionInstance exStateRT "IR" ["f1"] ["g1"] true id (fun _ => none)).wires ∧
    (expandDefinitionInstance exStateRT "IR" ["f1"] ["g1"] true id
        (fun _ => none)).canvasNodes =
      exStateRT.canvasNodes.filter (fun n => decide (n.instanceId ≠ "IR")) ++
        expansionNewNodes exStateRT.atomicNodes
          (extractDefinition [exAtom2P] exRTCand "R" "c" "DR") ["f1"] id ∧
    (expansionNewNodes exStateRT.atomicNodes
        (extractDefinition [exAtom2P] exRTCand "R" "c" "DR") ["f1"] id).map
          (·.definitionId) = exRTCand.nodes.map (·.definitionId) := by
  have hwf : ∀ cw ∈ exRTCand.wires, WireWellFormed cw := by
    intro cw hcw
    rcases List.mem_cons.mp hcw with h | h
    · subst h
      exact ⟨fun _ => ⟨0, rfl⟩, fun h2 => absurd rfl h2⟩
    · rcases List.mem_cons.mp h with h | h
      · subst h
        exact ⟨fun h2 => absurd rfl h2, fun _ => ⟨1, rfl⟩⟩
      · exact absurd h (List.not_mem_nil cw)
  have h := roundTrip_expand_reproduces [exAtom2P] exRTCand "R" "c" "DR" exStateRT "IR"
    exRTInst ["f1"] ["g1"] id (fun _ => none)
    (by decide) rfl (by rw [exRTDef_eq_extract]; decide)
    (by decide) (by decide) (by decide) (by decide)
    hwf (by decide) (by decide) (by decide) (by decide)
  obtain ⟨⟨hA1, hA2⟩, hB, hC⟩ := h
  have hc := hC exRTExt (by decide) 0 ⟨"p0", 0, true⟩ (Or.inr rfl) rfl (by decide)
    (by rw [exRTDef_eq_extract]; rfl)
  rcases hc with ⟨cw, nNew, q, hfindcw, hlook, hq, hmem2⟩
  have hcw : cw = exRTW0 := by
    have h1 : some cw = some exRTW0 := hfindcw.symm.trans (by decide)
    injection h1 with h2
  subst hcw
  have hnn : nNew = "f1" := by
    have h1 : some nNew = some "f1" := hlook.symm.trans (by decide)
    injection h1 with h2
  subst hnn
  have hqq : (0 : Int) = q := by
    have h1 : PortIndexOrId.num 0 = PortIndexOrId.num q :=
      ((by decide : (otherEndFromBoundary exRTW0).2 = PortIndexOrId.num 0)).symm.trans hq
    injection h1 with h2
  subst hqq
  rw [if_neg (by decide)] at hmem2
  exact ⟨hmem2, hA1, hA2⟩
